import Mathlib

/-!
# Attribute map of `aws/internal/attrmap/attrmap.go`

A shallow embedding of the three methods of `AttributeMap`
(`ApiAttributesToResourceData`, `ResourceDataToApiAttributesCreate`,
`ResourceDataToApiAttributesUpdate`) and the properties they satisfy.

Modelling choices.

* A Go `map[string]string` that is only read or built is a `GoMap`: a list of
  entries with `index` (`v, ok := m[k]`), `assign` (`m[k] = v`) and `len`.
* The receiver `m AttributeMap` is ranged over. Go visits every entry once, in an
  order that is not specified and may change from one `range` to the next, so the
  receiver is given as the list of its entries in the order of the visit; two
  lists that are permutations of each other are two visits of the same map.
* `*schema.ResourceData` is not part of the file: it appears as a record of the
  four methods the code calls, over an arbitrary state type. `Set` may change the
  state, the three queries read it.
* `interface{}` values are a `Value`: the three dynamic types the type switch
  names, and `other` carrying the `%T` text of any other dynamic type.
* `strconv.Itoa`, `strconv.FormatBool` and `fmt.Errorf` are the Go library:
  they are written out below as the library documents them.
-/

namespace Attrmap

/-! ## Go values and maps -/

/-- Dynamic value held in an `interface{}`: `int`, `bool`, `string`, or a value of
any other dynamic type, of which only the `%T` rendering is kept. -/
inductive Value where
  | int (v : Int)
  | bool (v : Bool)
  | string (v : String)
  | other (goType : String)
deriving DecidableEq, Repr

/-- A `map[string]string`, as the list of its entries. -/
structure GoMap where
  entries : List (String × String)
deriving DecidableEq, Repr

namespace GoMap

/-- The map literal `map[string]string{}`. -/
def empty : GoMap := ⟨[]⟩

/-- The lookup `v, ok := m[k]`: `some v` when `ok`. -/
def index (m : GoMap) (k : String) : Option String :=
  m.entries.lookup k

/-- The assignment `m[k] = v`: the entry of `k`, if any, is replaced. -/
def assign (m : GoMap) (k v : String) : GoMap :=
  ⟨(k, v) :: m.entries.filter (fun e => e.1 != k)⟩

/-- The builtin `len(m)`. -/
def len (m : GoMap) : Nat :=
  m.entries.length

/-- The keys of the map. -/
def keys (m : GoMap) : List String :=
  m.entries.map Prod.fst

end GoMap

/-! ## `strconv` -/

/-- The byte `'0' + d` of a decimal digit. -/
def digitChar (d : Nat) : Char :=
  Char.ofNat (48 + d)

/-- The digit loop of `strconv.formatBits` in base 10:
`for u >= 10 { q := u / 10; a[i] = '0' + u - q*10; u = q }; a[i] = '0' + u`,
writing from the right into the buffer `a`. The first argument bounds the number
of iterations. -/
def formatBits : Nat → Nat → List Char → List Char
  | 0, u, a => digitChar (u % 10) :: a
  | fuel + 1, u, a =>
    if u < 10 then digitChar u :: a
    else formatBits fuel (u / 10) (digitChar (u % 10) :: a)

/-- `strconv.Itoa`: the base-10 text of an integer, `-` first when negative. -/
def Itoa (i : Int) : String :=
  if i < 0 then String.mk ('-' :: formatBits i.natAbs i.natAbs [])
  else String.mk (formatBits i.natAbs i.natAbs [])

/-- `strconv.FormatBool`. -/
def FormatBool (b : Bool) : String :=
  if b then "true" else "false"

/-- The number written by a text of decimal digits, read from the left; `none` when
the text is empty or holds a byte that is no digit. -/
def parseUint (cs : List Char) : Option Nat :=
  if cs ≠ [] ∧ cs.all Char.isDigit = true then
    some (cs.foldl (fun n c => 10 * n + (c.toNat - 48)) 0)
  else none

/-- `strconv.Atoi` without its range check: an optional sign, then decimal digits. -/
def Atoi (s : String) : Option Int :=
  match s.data with
  | [] => none
  | c :: cs =>
    if c = '-' then (parseUint cs).map (fun (n : Nat) => -(n : Int))
    else if c = '+' then (parseUint cs).map (fun (n : Nat) => (n : Int))
    else (parseUint (c :: cs)).map (fun (n : Nat) => (n : Int))

/-- `strconv.ParseBool`: the texts Go reads as a boolean. -/
def ParseBool (s : String) : Option Bool :=
  if s = "1" ∨ s = "t" ∨ s = "T" ∨ s = "TRUE" ∨ s = "true" ∨ s = "True" then some true
  else if s = "0" ∨ s = "f" ∨ s = "F" ∨ s = "FALSE" ∨ s = "false" ∨ s = "False" then
    some false
  else none

/-! ## The store -/

/-- The methods of `*schema.ResourceData` that the attribute map calls, over a
store state `σ` and the store's error values `ε`.
`Set` returns the state it leaves behind and the error, if any; `ErrorText` is
the `Error()` text of a store error. -/
structure ResourceData (σ ε : Type) where
  Set : σ → String → String → σ × Option ε
  GetOk : σ → String → Value × Bool
  Get : σ → String → Value
  HasChange : σ → String → Bool
  ErrorText : ε → String

/-- The error built by `fmt.Errorf` with a `%w` verb: its text, and the error it
wraps (what `errors.Unwrap` returns). -/
structure WrapError (ε : Type) where
  text : String
  unwrap : ε
deriving DecidableEq, Repr

/-! ## The attribute map -/

/-- `type AttributeMap map[string]string`: Terraform attribute name to AWS API
attribute name, as the entries in the order the `range` visits them. -/
abbrev AttributeMap := List (String × String)

/-- The type switch shared by both exports (lines 36-45 and 63-72): the API text
of a value of dynamic type `int`, `bool` or `string`; `none` is the `default`
branch. -/
def apiAttributeValue : Value → Option String
  | .int v => some (Itoa v)
  | .bool v => some (FormatBool v)
  | .string v => some v
  | .other _ => none

/-- The text of `fmt.Errorf("attribute %s is of unsupported type: %T", name, v)`. -/
def unsupportedText (tfAttributeName : String) (v : Value) : String :=
  match v with
  | .int _ => "attribute " ++ tfAttributeName ++ " is of unsupported type: int"
  | .bool _ => "attribute " ++ tfAttributeName ++ " is of unsupported type: bool"
  | .string _ => "attribute " ++ tfAttributeName ++ " is of unsupported type: string"
  | .other goType => "attribute " ++ tfAttributeName ++ " is of unsupported type: " ++ goType

/-- `ApiAttributesToResourceData`: sets the store from a map of API attributes.
Returns the state of the store afterwards and the returned `error` (`none` is
`nil`). -/
def ApiAttributesToResourceData {σ ε : Type} (d : ResourceData σ ε) :
    AttributeMap → GoMap → σ → σ × Option (WrapError ε)
  | [], _, s => (s, none)
  | (tfAttributeName, apiAttributeName) :: rest, apiAttributes, s =>
    match apiAttributes.index apiAttributeName with
    | some v =>
      match d.Set s tfAttributeName v with
      | (s', some err) =>
        (s', some ⟨"error setting " ++ tfAttributeName ++ ": " ++ d.ErrorText err, err⟩)
      | (s', none) => ApiAttributesToResourceData d rest apiAttributes s'
    | none => ApiAttributesToResourceData d rest apiAttributes s

/-- The `range` loop of `ResourceDataToApiAttributesCreate` (lines 32-51), from the
map `apiAttributes` built so far. The result is the pair the function returns: the
map (`none` is `nil`) and the `error` (`none` is `nil`). -/
def createLoop {σ ε : Type} (d : ResourceData σ ε) (s : σ) :
    AttributeMap → GoMap → Option GoMap × Option String
  | [], apiAttributes => (some apiAttributes, none)
  | (tfAttributeName, apiAttributeName) :: rest, apiAttributes =>
    match d.GetOk s tfAttributeName with
    | (v, true) =>
      match apiAttributeValue v with
      | some apiAttributeValue =>
        createLoop d s rest (apiAttributes.assign apiAttributeName apiAttributeValue)
      | none => (none, some (unsupportedText tfAttributeName v))
    | (_, false) => createLoop d s rest apiAttributes

/-- `ResourceDataToApiAttributesCreate`: the API attributes for resource create. -/
def ResourceDataToApiAttributesCreate {σ ε : Type} (d : ResourceData σ ε)
    (m : AttributeMap) (s : σ) : Option GoMap × Option String :=
  createLoop d s m GoMap.empty

/-- The `range` loop of `ResourceDataToApiAttributesUpdate` (lines 59-78). -/
def updateLoop {σ ε : Type} (d : ResourceData σ ε) (s : σ) :
    AttributeMap → GoMap → Option GoMap × Option String
  | [], apiAttributes => (some apiAttributes, none)
  | (tfAttributeName, apiAttributeName) :: rest, apiAttributes =>
    if d.HasChange s tfAttributeName then
      match apiAttributeValue (d.Get s tfAttributeName) with
      | some apiAttributeValue =>
        updateLoop d s rest (apiAttributes.assign apiAttributeName apiAttributeValue)
      | none => (none, some (unsupportedText tfAttributeName (d.Get s tfAttributeName)))
    else updateLoop d s rest apiAttributes

/-- `ResourceDataToApiAttributesUpdate`: the API attributes for resource update. -/
def ResourceDataToApiAttributesUpdate {σ ε : Type} (d : ResourceData σ ε)
    (m : AttributeMap) (s : σ) : Option GoMap × Option String :=
  updateLoop d s m GoMap.empty

/-! ## The loop shared by both exports

Both exports run the same loop; they differ in how a field is read. `exportLoop`
is that loop over an arbitrary reading, and the two lemmas after it say that the
loops above are its instances. It is used in proofs only. -/

/-- The export loop over a reading `read`: `some v` when the field is exported
with value `v`, `none` when it is skipped. -/
def exportLoop (read : String → Option Value) :
    AttributeMap → GoMap → Option GoMap × Option String
  | [], apiAttributes => (some apiAttributes, none)
  | (tfAttributeName, apiAttributeName) :: rest, apiAttributes =>
    match read tfAttributeName with
    | some v =>
      match apiAttributeValue v with
      | some x => exportLoop read rest (apiAttributes.assign apiAttributeName x)
      | none => (none, some (unsupportedText tfAttributeName v))
    | none => exportLoop read rest apiAttributes

/-- How create reads a field: the value of `d.GetOk` when it reports `ok`. -/
def presentValue {σ ε : Type} (d : ResourceData σ ε) (s : σ) (tfAttributeName : String) :
    Option Value :=
  if (d.GetOk s tfAttributeName).2 then some (d.GetOk s tfAttributeName).1 else none

/-- How update reads a field: the value of `d.Get` when `d.HasChange` holds. -/
def changedValue {σ ε : Type} (d : ResourceData σ ε) (s : σ) (tfAttributeName : String) :
    Option Value :=
  if d.HasChange s tfAttributeName then some (d.Get s tfAttributeName) else none

/-- The set calls a store receives: field, value, and whether the call failed. -/
structure SetCall where
  tfAttributeName : String
  value : String
  failed : Bool
deriving DecidableEq, Repr

/-- The store `d` with a journal: every `Set` is passed to `d` and appended to the
journal with its outcome; the queries are those of `d`. -/
def ResourceData.journaled {σ ε : Type} (d : ResourceData σ ε) :
    ResourceData (σ × List SetCall) ε where
  Set := fun st k v =>
    ((((d.Set st.1 k v).1), st.2 ++ [⟨k, v, (d.Set st.1 k v).2.isSome⟩]), (d.Set st.1 k v).2)
  GetOk := fun st k => d.GetOk st.1 k
  Get := fun st k => d.Get st.1 k
  HasChange := fun st k => d.HasChange st.1 k
  ErrorText := d.ErrorText

/-- The set calls that import makes when none fails: one per entry of the
attribute map whose API name is a key of `apiAttributes`, in the order of the
visit, with the value found there. -/
def expectedCalls (m : AttributeMap) (apiAttributes : GoMap) : List SetCall :=
  m.filterMap (fun e => (apiAttributes.index e.2).map (fun v => ⟨e.1, v, false⟩))

/-- The set calls that import makes from the state `s`, in order: the journal the
journaled store ends with when it starts empty. -/
def importCalls {σ ε : Type} (d : ResourceData σ ε) (m : AttributeMap)
    (apiAttributes : GoMap) (s : σ) : List SetCall :=
  (ApiAttributesToResourceData d.journaled m apiAttributes (s, [])).1.2

/-- The state a store is left in by a list of set calls made one after the other. -/
def applyCalls {σ ε : Type} (d : ResourceData σ ε) (s : σ) (calls : List SetCall) : σ :=
  calls.foldl (fun st c => (d.Set st c.tfAttributeName c.value).1) s

/-! ## A store for examples -/

/-- A declared field of the example store: its current value, the value last
applied (the nil value when none was), and, for a value of a type other than
`int`, `bool` and `string`, whose content is not kept, whether it is not the zero
value of its type. -/
structure Field where
  value : Value
  applied : Value
  nonzero : Bool
deriving DecidableEq, Repr

/-- Whether the value of the field is not the zero value of its type. -/
def Field.present (f : Field) : Bool :=
  match f.value with
  | .int v => v != 0
  | .bool v => v
  | .string v => v != ""
  | .other _ => f.nonzero

/-- The state of the example store: its declared fields. -/
abbrev Table := List (String × Field)

/-- The table with the field `k` replaced. -/
def Table.put (t : Table) (k : String) (f : Field) : Table :=
  t.map (fun e => if e.1 = k then (k, f) else e)

/-- Modelled from the spec: the configuration store of section 6, which is not among
the sources, over a table of declared fields. `Get` returns the current value;
`GetOk` reports a field present when its value is not the zero value of its type;
`HasChange` holds when the current value differs from the last applied one; `Set`
coerces the string into the declared type of the field, the type of its current
value, and fails, leaving the table as it is, on a field that is not declared, on a
string that cannot be coerced, and on a field of another type. A query on a name
that is not declared answers with the nil value. An error is its text. -/
def tableStore : ResourceData Table String where
  Set := fun t k v =>
    match t.lookup k with
    | some f =>
      match f.value with
      | .string _ => (t.put k ⟨Value.string v, f.applied, f.nonzero⟩, none)
      | .int _ =>
        match Atoi v with
        | some n => (t.put k ⟨Value.int n, f.applied, f.nonzero⟩, none)
        | none => (t, some (k ++ ": cannot parse as int: " ++ v))
      | .bool _ =>
        match ParseBool v with
        | some b => (t.put k ⟨Value.bool b, f.applied, f.nonzero⟩, none)
        | none => (t, some (k ++ ": cannot parse as bool: " ++ v))
      | .other goType => (t, some (k ++ ": cannot set a value of type " ++ goType))
    | none => (t, some ("Invalid address to set: " ++ k))
  GetOk := fun t k =>
    match t.lookup k with
    | some f => (f.value, f.present)
    | none => (Value.other "<nil>", false)
  Get := fun t k =>
    match t.lookup k with
    | some f => f.value
    | none => Value.other "<nil>"
  HasChange := fun t k =>
    match t.lookup k with
    | some f => f.value != f.applied
    | none => false
  ErrorText := fun e => e

/-- The attribute map of the queue example. -/
def queueMap : AttributeMap :=
  [("name", "QueueName"), ("delay", "DelaySeconds"), ("fifo", "FifoQueue")]

/-- The queue store at create: `name` holds `"orders"`, `delay` is unset and `fifo`
holds `false`, both the zero value of their type; nothing was applied before. -/
def ordersTable : Table :=
  [("name", ⟨Value.string "orders", Value.string "", true⟩),
   ("delay", ⟨Value.int 0, Value.int 0, false⟩),
   ("fifo", ⟨Value.bool false, Value.bool false, false⟩)]

/-- The queue store at update: only `delay` has changed, from `30` to `45`. -/
def delayChangedTable : Table :=
  [("name", ⟨Value.string "orders", Value.string "orders", true⟩),
   ("delay", ⟨Value.int 45, Value.int 30, true⟩),
   ("fifo", ⟨Value.bool false, Value.bool false, false⟩)]

/-- Two fields mapped to one API name. -/
def collidingMap : AttributeMap :=
  [("first", "Name"), ("second", "Name")]

/-- A store in which both fields of `collidingMap` are present and changed, with
different values. -/
def collidingTable : Table :=
  [("first", ⟨Value.string "1", Value.string "", true⟩),
   ("second", ⟨Value.string "2", Value.string "", true⟩)]

/-- API attributes of the queue example. -/
def queueAttributes : GoMap :=
  ⟨[("QueueName", "orders"), ("DelaySeconds", "30"), ("FifoQueue", "true")]⟩

/-- A partial response: one mapped API name and one that the queue map does not
know. -/
def sparseAttributes : GoMap :=
  ⟨[("VisibilityTimeout", "60"), ("DelaySeconds", "30")]⟩

/-- The queue map with its second field renamed to one the store does not declare. -/
def undeclaredMap : AttributeMap :=
  [("name", "QueueName"), ("timeout", "DelaySeconds"), ("fifo", "FifoQueue")]

/-- An attribute map with a field that the store holds as a `float64`. -/
def ratioMap : AttributeMap :=
  [("name", "QueueName"), ("ratio", "SamplingRatio"), ("fifo", "FifoQueue")]

/-- A store in which every field is present and changed, `ratio` being a `float64`
that was never applied. -/
def ratioTable : Table :=
  [("name", ⟨Value.string "orders", Value.string "", true⟩),
   ("ratio", ⟨Value.other "float64", Value.other "<nil>", true⟩),
   ("fifo", ⟨Value.bool true, Value.bool false, true⟩)]

/-- The queue store with nothing configured and nothing changed. -/
def unsetTable : Table :=
  [("name", ⟨Value.string "", Value.string "", false⟩),
   ("delay", ⟨Value.int 0, Value.int 0, false⟩),
   ("fifo", ⟨Value.bool false, Value.bool false, false⟩)]

/-- A response with no API name of the queue map. -/
def foreignAttributes : GoMap :=
  ⟨[("VisibilityTimeout", "60"), ("Policy", "none")]⟩

/-! ## A typed store for the queue example -/

/-- The fields of a queue, each of its declared type. -/
structure QueueConfig where
  name : String
  delay : Int
  fifo : Bool
deriving DecidableEq, Repr

/-- The state of the typed store: the current values and the last applied ones. -/
structure QueueState where
  current : QueueConfig
  applied : QueueConfig
deriving DecidableEq, Repr

/-- Modelled from the spec: the configuration store of section 6, which is not among
the sources, for the schema `name: string`, `delay: integer`, `fifo: boolean`.
`Set` coerces the string into the declared type of the field and fails on an
unknown field or a string that cannot be coerced; `Get` returns the current value;
`GetOk` reports a field whose value is not the zero value; `HasChange` compares the
current value with the last applied one. -/
def queueStore : ResourceData QueueState String where
  Set := fun st k v =>
    if k = "name" then (⟨⟨v, st.current.delay, st.current.fifo⟩, st.applied⟩, none)
    else if k = "delay" then
      match Atoi v with
      | some n => (⟨⟨st.current.name, n, st.current.fifo⟩, st.applied⟩, none)
      | none => (st, some ("delay: cannot parse as int: " ++ v))
    else if k = "fifo" then
      match ParseBool v with
      | some b => (⟨⟨st.current.name, st.current.delay, b⟩, st.applied⟩, none)
      | none => (st, some ("fifo: cannot parse as bool: " ++ v))
    else (st, some ("Invalid address to set: " ++ k))
  GetOk := fun st k =>
    if k = "name" then (Value.string st.current.name, st.current.name != "")
    else if k = "delay" then (Value.int st.current.delay, st.current.delay != 0)
    else if k = "fifo" then (Value.bool st.current.fifo, st.current.fifo)
    else (Value.other "<nil>", false)
  Get := fun st k =>
    if k = "name" then Value.string st.current.name
    else if k = "delay" then Value.int st.current.delay
    else if k = "fifo" then Value.bool st.current.fifo
    else Value.other "<nil>"
  HasChange := fun st k =>
    if k = "name" then st.current.name != st.applied.name
    else if k = "delay" then st.current.delay != st.applied.delay
    else if k = "fifo" then st.current.fifo != st.applied.fifo
    else false
  ErrorText := fun e => e

/-- The typed store before anything is configured. -/
def blankQueue : QueueState :=
  ⟨⟨"", 0, false⟩, ⟨"", 0, false⟩⟩

/-- The typed store at create: `name` holds `"orders"`, `delay` is unset and `fifo`
holds `false`; nothing was applied before. -/
def ordersQueue : QueueState :=
  ⟨⟨"orders", 0, false⟩, ⟨"", 0, false⟩⟩

/-! ## Further examples -/

/-- A store in which `ratio` is a `float64` that is neither present nor changed: it
holds the zero value, as applied. -/
def dormantRatioTable : Table :=
  [("name", ⟨Value.string "orders", Value.string "", true⟩),
   ("ratio", ⟨Value.other "float64", Value.other "float64", false⟩),
   ("fifo", ⟨Value.bool true, Value.bool false, true⟩)]

/-- An attribute map with two fields that the store holds as `float64`. -/
def weightMap : AttributeMap :=
  [("ratio", "SamplingRatio"), ("weight", "Weight")]

/-- A store in which both fields of `weightMap` are present and changed. -/
def weightTable : Table :=
  [("ratio", ⟨Value.other "float64", Value.other "<nil>", true⟩),
   ("weight", ⟨Value.other "float64", Value.other "<nil>", true⟩)]

/-- Two fields mapped to one API name, and a third field. -/
def crowdedMap : AttributeMap :=
  [("first", "Name"), ("second", "Name"), ("ratio", "SamplingRatio")]

/-- A store in which the two colliding fields are present and changed strings and
the third field a present and changed `float64`. -/
def crowdedTable : Table :=
  [("first", ⟨Value.string "1", Value.string "", true⟩),
   ("second", ⟨Value.string "2", Value.string "", true⟩),
   ("ratio", ⟨Value.other "float64", Value.other "<nil>", true⟩)]

/-- Three fields mapped to one API name. -/
def tripleMap : AttributeMap :=
  [("first", "Name"), ("second", "Name"), ("third", "Name")]

/-- A store in which the three fields of `tripleMap` are present and changed. -/
def tripleTable : Table :=
  [("first", ⟨Value.string "1", Value.string "", true⟩),
   ("second", ⟨Value.string "2", Value.string "", true⟩),
   ("third", ⟨Value.string "3", Value.string "", true⟩)]

/-- An attribute map whose field name is also its API name. -/
def echoMap : AttributeMap :=
  [("name", "name")]

/-! ## Lemmas on maps -/

theorem lookup_filter_ne (k k' : String) (h : k' ≠ k) (l : List (String × String)) :
    List.lookup k' (l.filter (fun e => e.1 != k)) = List.lookup k' l := by
  induction l with
  | nil => rfl
  | cons e t ih =>
    obtain ⟨a, b⟩ := e
    by_cases hak : a = k
    · subst hak
      have h1 : (k' == a) = false := by simpa using h
      simp [List.filter, List.lookup, h1, ih]
    · have h2 : (a != k) = true := by simpa using hak
      simp only [List.filter, h2, List.lookup]
      rw [ih]

theorem GoMap.index_assign (m : GoMap) (k v k' : String) :
    (m.assign k v).index k' = if k' = k then some v else m.index k' := by
  unfold GoMap.assign GoMap.index
  by_cases h : k' = k
  · subst h; simp [List.lookup]
  · have h1 : (k' == k) = false := by simpa using h
    simp only [List.lookup, h1, if_neg h]
    exact lookup_filter_ne k k' h m.entries

theorem GoMap.index_empty (k : String) : GoMap.empty.index k = none := rfl

theorem lookup_eq_none_iff_not_mem (k : String) (l : List (String × String)) :
    List.lookup k l = none ↔ k ∉ l.map Prod.fst := by
  induction l with
  | nil => simp [List.lookup]
  | cons e t ih =>
    obtain ⟨a, b⟩ := e
    by_cases hak : k = a
    · subst hak; simp [List.lookup]
    · have h1 : (k == a) = false := by simpa using hak
      simp [List.lookup, h1, ih, hak]

theorem GoMap.index_eq_none_iff (m : GoMap) (k : String) :
    m.index k = none ↔ k ∉ m.keys :=
  lookup_eq_none_iff_not_mem k m.entries

theorem filter_ne_of_not_mem (k : String) (l : List (String × String))
    (h : k ∉ l.map Prod.fst) : l.filter (fun e => e.1 != k) = l := by
  rw [List.filter_eq_self]
  intro e he
  have : e.1 ≠ k := fun hk => h (hk ▸ List.mem_map_of_mem Prod.fst he)
  simpa using this

theorem GoMap.len_assign_of_not_mem (m : GoMap) (k v : String) (h : k ∉ m.keys) :
    (m.assign k v).len = m.len + 1 := by
  unfold GoMap.assign GoMap.len
  simp [filter_ne_of_not_mem k m.entries h]

theorem GoMap.keys_assign (m : GoMap) (k v : String) :
    (m.assign k v).keys = k :: (m.keys.filter (fun a => a != k)) := by
  unfold GoMap.assign GoMap.keys
  simp [List.filter_map, Function.comp_def]

theorem GoMap.nodup_keys_assign (m : GoMap) (k v : String) (h : m.keys.Nodup) :
    (m.assign k v).keys.Nodup := by
  rw [GoMap.keys_assign]
  refine List.nodup_cons.mpr ⟨?_, h.filter _⟩
  simp [List.mem_filter]

theorem GoMap.eq_single (m : GoMap) (k v : String) (hlen : m.len = 1)
    (hidx : m.index k = some v) : m = ⟨[(k, v)]⟩ := by
  obtain ⟨entries⟩ := m
  match entries, hlen with
  | [(a, b)], _ =>
    by_cases hka : k = a
    · subst hka
      simp [GoMap.index, List.lookup] at hidx
      rw [hidx]
    · have h1 : (k == a) = false := by simpa using hka
      simp [GoMap.index, List.lookup, h1] at hidx

theorem mem_iff_lookup_of_nodup (l : List (String × String))
    (h : (l.map Prod.fst).Nodup) (k v : String) :
    (k, v) ∈ l ↔ List.lookup k l = some v := by
  induction l with
  | nil => simp [List.lookup]
  | cons e t ih =>
    obtain ⟨a, b⟩ := e
    rw [List.map_cons, List.nodup_cons] at h
    by_cases hka : k = a
    · subst hka
      have hnot : ∀ w, (k, w) ∉ t := by
        intro w hw
        have h1 : (k, w).1 ∈ t.map Prod.fst := List.mem_map_of_mem Prod.fst hw
        exact h.1 h1
      simp [List.lookup, hnot v, eq_comm]
    · have h1 : (k == a) = false := by simpa using hka
      simp [List.lookup, h1, hka, ih h.2]

/-- Two maps with the same lookups hold the same entries. -/
theorem GoMap.perm_of_index_eq (m m' : GoMap) (h : m.keys.Nodup) (h' : m'.keys.Nodup)
    (hidx : ∀ k, m.index k = m'.index k) : m.entries.Perm m'.entries := by
  refine (List.perm_ext_iff_of_nodup (List.Nodup.of_map _ h) (List.Nodup.of_map _ h')).mpr ?_
  intro e
  obtain ⟨k, v⟩ := e
  rw [mem_iff_lookup_of_nodup m.entries h k v, mem_iff_lookup_of_nodup m'.entries h' k v]
  have := hidx k
  unfold GoMap.index at this
  rw [this]

/-! ## Lemmas on the export loop -/

theorem createLoop_eq_exportLoop {σ ε : Type} (d : ResourceData σ ε) (s : σ)
    (m : AttributeMap) (acc : GoMap) :
    createLoop d s m acc = exportLoop (presentValue d s) m acc := by
  induction m generalizing acc with
  | nil => rfl
  | cons e t ih =>
    obtain ⟨l, r⟩ := e
    unfold createLoop exportLoop presentValue
    rcases hg : d.GetOk s l with ⟨v, ok⟩
    cases ok with
    | true =>
      cases hv : apiAttributeValue v with
      | none => simp [hv]
      | some x => simpa [hv] using ih _
    | false => simpa using ih _

theorem updateLoop_eq_exportLoop {σ ε : Type} (d : ResourceData σ ε) (s : σ)
    (m : AttributeMap) (acc : GoMap) :
    updateLoop d s m acc = exportLoop (changedValue d s) m acc := by
  induction m generalizing acc with
  | nil => rfl
  | cons e t ih =>
    obtain ⟨l, r⟩ := e
    unfold updateLoop exportLoop changedValue
    cases hc : d.HasChange s l with
    | true =>
      cases hv : apiAttributeValue (d.Get s l) with
      | none => simp [hv]
      | some x => simpa [hv] using ih _
    | false => simpa using ih _

theorem exportLoop_cons_skip (read : String → Option Value) (l r : String)
    (t : AttributeMap) (acc : GoMap) (h : read l = none) :
    exportLoop read ((l, r) :: t) acc = exportLoop read t acc := by
  simp [exportLoop, h]

theorem exportLoop_cons_assign (read : String → Option Value) (l r : String)
    (t : AttributeMap) (acc : GoMap) (v : Value) (x : String) (h : read l = some v)
    (hx : apiAttributeValue v = some x) :
    exportLoop read ((l, r) :: t) acc = exportLoop read t (acc.assign r x) := by
  simp [exportLoop, h, hx]

theorem exportLoop_cons_fail (read : String → Option Value) (l r : String)
    (t : AttributeMap) (acc : GoMap) (v : Value) (h : read l = some v)
    (hx : apiAttributeValue v = none) :
    exportLoop read ((l, r) :: t) acc = (none, some (unsupportedText l v)) := by
  simp [exportLoop, h, hx]

/-- The loop returns a map and no error, or no map and an error. -/
theorem exportLoop_shape (read : String → Option Value) (m : AttributeMap) (acc : GoMap) :
    (∃ out, exportLoop read m acc = (some out, none)) ∨
    (∃ msg, exportLoop read m acc = (none, some msg)) := by
  induction m generalizing acc with
  | nil => exact Or.inl ⟨acc, rfl⟩
  | cons e t ih =>
    obtain ⟨l, r⟩ := e
    cases h : read l with
    | none => rw [exportLoop_cons_skip read l r t acc h]; exact ih acc
    | some v =>
      cases hx : apiAttributeValue v with
      | none => rw [exportLoop_cons_fail read l r t acc v h hx]; exact Or.inr ⟨_, rfl⟩
      | some x => rw [exportLoop_cons_assign read l r t acc v x h hx]; exact ih _

/-- The loop succeeds when every exported field has a supported type. -/
theorem exportLoop_ok (read : String → Option Value) (m : AttributeMap) (acc : GoMap)
    (h : ∀ e ∈ m, ∀ v, read e.1 = some v → apiAttributeValue v ≠ none) :
    ∃ out, exportLoop read m acc = (some out, none) := by
  induction m generalizing acc with
  | nil => exact ⟨acc, rfl⟩
  | cons e t ih =>
    obtain ⟨l, r⟩ := e
    have ht : ∀ e ∈ t, ∀ v, read e.1 = some v → apiAttributeValue v ≠ none :=
      fun e he => h e (List.mem_cons_of_mem _ he)
    cases hl : read l with
    | none => rw [exportLoop_cons_skip read l r t acc hl]; exact ih acc ht
    | some v =>
      cases hx : apiAttributeValue v with
      | none => exact absurd hx (h (l, r) (List.mem_cons_self _ _) v hl)
      | some x => rw [exportLoop_cons_assign read l r t acc v x hl hx]; exact ih _ ht

/-- The loop fails at the first exported field of unsupported type, with the error
naming that field. -/
theorem exportLoop_first_unsupported (read : String → Option Value)
    (pre post : AttributeMap) (l r : String) (v : Value) (acc : GoMap)
    (hpre : ∀ e ∈ pre, ∀ w, read e.1 = some w → apiAttributeValue w ≠ none)
    (hl : read l = some v) (hv : apiAttributeValue v = none) :
    exportLoop read (pre ++ (l, r) :: post) acc = (none, some (unsupportedText l v)) := by
  induction pre generalizing acc with
  | nil => exact exportLoop_cons_fail read l r post acc v hl hv
  | cons e t ih =>
    obtain ⟨a, b⟩ := e
    have ht : ∀ e ∈ t, ∀ w, read e.1 = some w → apiAttributeValue w ≠ none :=
      fun e he => hpre e (List.mem_cons_of_mem _ he)
    rw [List.cons_append]
    cases ha : read a with
    | none => rw [exportLoop_cons_skip read a b _ acc ha]; exact ih acc ht
    | some w =>
      cases hx : apiAttributeValue w with
      | none => exact absurd hx (hpre (a, b) (List.mem_cons_self _ _) w ha)
      | some x => rw [exportLoop_cons_assign read a b _ acc w x ha hx]; exact ih _ ht

/-- A failing loop has an exported field of unsupported type. -/
theorem exportLoop_error_mem (read : String → Option Value) (m : AttributeMap) (acc : GoMap)
    (msg : String) (h : exportLoop read m acc = (none, some msg)) :
    ∃ e ∈ m, ∃ v, read e.1 = some v ∧ apiAttributeValue v = none ∧
      msg = unsupportedText e.1 v := by
  induction m generalizing acc with
  | nil => simp [exportLoop] at h
  | cons e t ih =>
    obtain ⟨l, r⟩ := e
    cases hl : read l with
    | none =>
      rw [exportLoop_cons_skip read l r t acc hl] at h
      obtain ⟨e, he, hh⟩ := ih acc h
      exact ⟨e, List.mem_cons_of_mem _ he, hh⟩
    | some v =>
      cases hx : apiAttributeValue v with
      | none =>
        rw [exportLoop_cons_fail read l r t acc v hl hx] at h
        refine ⟨(l, r), List.mem_cons_self _ _, v, hl, hx, ?_⟩
        simpa using h.symm
      | some x =>
        rw [exportLoop_cons_assign read l r t acc v x hl hx] at h
        obtain ⟨e, he, hh⟩ := ih _ h
        exact ⟨e, List.mem_cons_of_mem _ he, hh⟩

/-- A key that no exported entry maps to keeps the value it had. -/
theorem exportLoop_index_frame (read : String → Option Value) (m : AttributeMap)
    (acc out : GoMap) (k : String) (h : exportLoop read m acc = (some out, none))
    (hk : ∀ e ∈ m, e.2 = k → read e.1 = none) : out.index k = acc.index k := by
  induction m generalizing acc with
  | nil => simp [exportLoop] at h; rw [h]
  | cons e t ih =>
    obtain ⟨l, r⟩ := e
    have ht : ∀ e ∈ t, e.2 = k → read e.1 = none :=
      fun e he => hk e (List.mem_cons_of_mem _ he)
    cases hl : read l with
    | none =>
      rw [exportLoop_cons_skip read l r t acc hl] at h
      exact ih acc h ht
    | some v =>
      cases hx : apiAttributeValue v with
      | none => rw [exportLoop_cons_fail read l r t acc v hl hx] at h; simp at h
      | some x =>
        rw [exportLoop_cons_assign read l r t acc v x hl hx] at h
        have hrk : k ≠ r := by
          intro hkr
          have := hk (l, r) (List.mem_cons_self _ _) hkr.symm
          simp [hl] at this
        rw [ih _ h ht, GoMap.index_assign, if_neg hrk]

/-- With pairwise distinct API names, the entry of an exported field holds its
text. -/
theorem exportLoop_index_mem (read : String → Option Value) (m : AttributeMap)
    (acc out : GoMap) (h : exportLoop read m acc = (some out, none))
    (hnd : (m.map Prod.snd).Nodup) (l r : String) (v : Value) (hm : (l, r) ∈ m)
    (hl : read l = some v) : out.index r = apiAttributeValue v := by
  induction m generalizing acc with
  | nil => simp at hm
  | cons e t ih =>
    obtain ⟨a, b⟩ := e
    rw [List.map_cons, List.nodup_cons] at hnd
    rcases List.mem_cons.mp hm with heq | hmt
    · obtain ⟨rfl, rfl⟩ := Prod.mk.inj heq
      cases hx : apiAttributeValue v with
      | none => rw [exportLoop_cons_fail read l r t acc v hl hx] at h; simp at h
      | some x =>
        rw [exportLoop_cons_assign read l r t acc v x hl hx] at h
        have hfr : ∀ e ∈ t, e.2 = r → read e.1 = none := by
          intro e he her
          have h1 : e.2 ∈ t.map Prod.snd := List.mem_map_of_mem Prod.snd he
          rw [her] at h1
          exact absurd h1 hnd.1
        rw [exportLoop_index_frame read t _ out r h hfr, GoMap.index_assign, if_pos rfl]
    · cases ha : read a with
      | none =>
        rw [exportLoop_cons_skip read a b t acc ha] at h
        exact ih acc h hnd.2 hmt
      | some w =>
        cases hx : apiAttributeValue w with
        | none => rw [exportLoop_cons_fail read a b t acc w ha hx] at h; simp at h
        | some x =>
          rw [exportLoop_cons_assign read a b t acc w x ha hx] at h
          exact ih _ h hnd.2 hmt

/-- Every entry of the output was in the map at the start or is the text of an
exported field under its API name. -/
theorem exportLoop_index_origin (read : String → Option Value) (m : AttributeMap)
    (acc out : GoMap) (k x : String) (h : exportLoop read m acc = (some out, none))
    (hk : out.index k = some x) :
    acc.index k = some x ∨
      ∃ l v, (l, k) ∈ m ∧ read l = some v ∧ apiAttributeValue v = some x := by
  induction m generalizing acc with
  | nil => simp [exportLoop] at h; rw [h]; exact Or.inl hk
  | cons e t ih =>
    obtain ⟨a, b⟩ := e
    have lift : (∃ l v, (l, k) ∈ t ∧ read l = some v ∧ apiAttributeValue v = some x) →
        ∃ l v, (l, k) ∈ (a, b) :: t ∧ read l = some v ∧ apiAttributeValue v = some x :=
      fun ⟨l, v, hm, hh⟩ => ⟨l, v, List.mem_cons_of_mem _ hm, hh⟩
    cases ha : read a with
    | none =>
      rw [exportLoop_cons_skip read a b t acc ha] at h
      exact (ih acc h).imp id lift
    | some w =>
      cases hx : apiAttributeValue w with
      | none => rw [exportLoop_cons_fail read a b t acc w ha hx] at h; simp at h
      | some y =>
        rw [exportLoop_cons_assign read a b t acc w y ha hx] at h
        rcases ih _ h with hacc | hex
        · rw [GoMap.index_assign] at hacc
          by_cases hkb : k = b
          · rw [if_pos hkb] at hacc
            subst hkb
            exact Or.inr ⟨a, w, List.mem_cons_self _ _, ha, by rw [hx]; exact hacc⟩
          · rw [if_neg hkb] at hacc
            exact Or.inl hacc
        · exact Or.inr (lift hex)

/-- The loop keeps the keys of the output pairwise distinct. -/
theorem exportLoop_nodup_keys (read : String → Option Value) (m : AttributeMap)
    (acc out : GoMap) (h : exportLoop read m acc = (some out, none))
    (hacc : acc.keys.Nodup) : out.keys.Nodup := by
  induction m generalizing acc with
  | nil => simp [exportLoop] at h; rw [← h]; exact hacc
  | cons e t ih =>
    obtain ⟨a, b⟩ := e
    cases ha : read a with
    | none =>
      rw [exportLoop_cons_skip read a b t acc ha] at h
      exact ih acc h hacc
    | some w =>
      cases hx : apiAttributeValue w with
      | none => rw [exportLoop_cons_fail read a b t acc w ha hx] at h; simp at h
      | some y =>
        rw [exportLoop_cons_assign read a b t acc w y ha hx] at h
        exact ih _ h (GoMap.nodup_keys_assign acc b y hacc)

/-- With pairwise distinct API names, none of them in the map at the start, the
output gains one entry per exported field. -/
theorem exportLoop_len (read : String → Option Value) (m : AttributeMap)
    (acc out : GoMap) (h : exportLoop read m acc = (some out, none))
    (hnd : (m.map Prod.snd).Nodup) (hdisj : ∀ e ∈ m, e.2 ∉ acc.keys) :
    out.len = acc.len + (m.filter (fun e => (read e.1).isSome)).length := by
  induction m generalizing acc with
  | nil => simp [exportLoop] at h; rw [← h]; simp
  | cons e t ih =>
    obtain ⟨a, b⟩ := e
    rw [List.map_cons, List.nodup_cons] at hnd
    have hdt : ∀ e ∈ t, e.2 ∉ acc.keys := fun e he => hdisj e (List.mem_cons_of_mem _ he)
    cases ha : read a with
    | none =>
      rw [exportLoop_cons_skip read a b t acc ha] at h
      rw [ih acc h hnd.2 hdt]
      simp [List.filter, ha]
    | some w =>
      cases hx : apiAttributeValue w with
      | none => rw [exportLoop_cons_fail read a b t acc w ha hx] at h; simp at h
      | some y =>
        rw [exportLoop_cons_assign read a b t acc w y ha hx] at h
        have hd2 : ∀ e ∈ t, e.2 ∉ (acc.assign b y).keys := by
          intro e he hmem
          rw [GoMap.keys_assign, List.mem_cons, List.mem_filter] at hmem
          rcases hmem with hb | ⟨hin, _⟩
          · have h1 : e.2 ∈ t.map Prod.snd := List.mem_map_of_mem Prod.snd he
            rw [hb] at h1
            exact hnd.1 h1
          · exact hdt e he hin
        rw [ih _ h hnd.2 hd2,
          GoMap.len_assign_of_not_mem acc b y (hdisj (a, b) (List.mem_cons_self _ _))]
        simp [List.filter, ha]
        omega

/-- A loop that returns a map met no exported field of unsupported type. -/
theorem exportLoop_ok_supported (read : String → Option Value) (m : AttributeMap)
    (acc out : GoMap) (h : exportLoop read m acc = (some out, none)) :
    ∀ e ∈ m, ∀ v, read e.1 = some v → apiAttributeValue v ≠ none := by
  induction m generalizing acc with
  | nil => intro e he; simp at he
  | cons e t ih =>
    obtain ⟨a, b⟩ := e
    cases ha : read a with
    | none =>
      rw [exportLoop_cons_skip read a b t acc ha] at h
      intro e he v hv
      rcases List.mem_cons.mp he with rfl | het
      · rw [ha] at hv; simp at hv
      · exact ih acc h e het v hv
    | some w =>
      cases hx : apiAttributeValue w with
      | none => rw [exportLoop_cons_fail read a b t acc w ha hx] at h; simp at h
      | some x =>
        rw [exportLoop_cons_assign read a b t acc w x ha hx] at h
        intro e he v hv
        rcases List.mem_cons.mp he with rfl | het
        · rw [ha] at hv
          simp only [Option.some.injEq] at hv
          subst hv
          rw [hx]; simp
        · exact ih _ h e het v hv

/-- A loop that meets an exported field of unsupported type returns no map and an
error naming such a field. -/
theorem exportLoop_fails (read : String → Option Value) (m : AttributeMap) (acc : GoMap)
    (h : ∃ e ∈ m, ∃ v, read e.1 = some v ∧ apiAttributeValue v = none) :
    ∃ e ∈ m, ∃ v, read e.1 = some v ∧ apiAttributeValue v = none ∧
      exportLoop read m acc = (none, some (unsupportedText e.1 v)) := by
  rcases exportLoop_shape read m acc with ⟨out, hout⟩ | ⟨msg, hmsg⟩
  · obtain ⟨e, he, v, hv, hx⟩ := h
    exact absurd hx (exportLoop_ok_supported read m acc out hout e he v hv)
  · obtain ⟨e, he, v, hv, hx, hm⟩ := exportLoop_error_mem read m acc msg hmsg
    exact ⟨e, he, v, hv, hx, by rw [hmsg, hm]⟩

theorem apiAttributeValue_eq_none (v : Value) :
    apiAttributeValue v = none ↔ ∃ goType, v = Value.other goType := by
  cases v <;> simp [apiAttributeValue]

/-- With pairwise distinct API names and every exported field of a supported
type, the loop started on the empty map returns the map of the exported fields. -/
theorem exportLoop_exact (read : String → Option Value) (m : AttributeMap)
    (hnd : (m.map Prod.snd).Nodup)
    (hsup : ∀ e ∈ m, ∀ v, read e.1 = some v → apiAttributeValue v ≠ none) :
    ∃ out, exportLoop read m GoMap.empty = (some out, none) ∧
      (∀ e ∈ m, ∀ v, read e.1 = some v → out.index e.2 = apiAttributeValue v) ∧
      (∀ k x, out.index k = some x →
        ∃ e ∈ m, ∃ v, e.2 = k ∧ read e.1 = some v ∧ apiAttributeValue v = some x) ∧
      (∀ e ∈ m, read e.1 = none → out.index e.2 = none) ∧
      out.keys.Nodup ∧
      out.len = (m.filter (fun e => (read e.1).isSome)).length := by
  obtain ⟨out, hout⟩ := exportLoop_ok read m GoMap.empty hsup
  have horigin : ∀ k x, out.index k = some x →
      ∃ e ∈ m, ∃ v, e.2 = k ∧ read e.1 = some v ∧ apiAttributeValue v = some x := by
    intro k x hk
    rcases exportLoop_index_origin read m GoMap.empty out k x hout hk with h0 | ⟨l, v, hm, hl, hx⟩
    · simp [GoMap.index_empty] at h0
    · exact ⟨(l, k), hm, v, rfl, hl, hx⟩
  refine ⟨out, hout, ?_, horigin, ?_, ?_, ?_⟩
  · intro e he v hv
    exact exportLoop_index_mem read m GoMap.empty out hout hnd e.1 e.2 v he hv
  · intro e he hnone
    cases hidx : out.index e.2 with
    | none => rfl
    | some x =>
      obtain ⟨e', he', v, h2, hread, _⟩ := horigin e.2 x hidx
      have : e' = e := List.inj_on_of_nodup_map hnd he' he h2
      rw [this, hnone] at hread
      exact absurd hread (by simp)
  · exact exportLoop_nodup_keys read m GoMap.empty out hout (by simp [GoMap.keys, GoMap.empty])
  · have := exportLoop_len read m GoMap.empty out hout hnd (by simp [GoMap.keys, GoMap.empty])
    simpa [GoMap.len, GoMap.empty] using this

/-- The entry of an exported field holds its text when no entry visited after it
exports to the same API name. -/
theorem exportLoop_index_last (read : String → Option Value) (pre post : AttributeMap)
    (l r : String) (v : Value) (acc out : GoMap)
    (h : exportLoop read (pre ++ (l, r) :: post) acc = (some out, none))
    (hl : read l = some v) (hpost : ∀ e ∈ post, e.2 = r → read e.1 = none) :
    out.index r = apiAttributeValue v := by
  induction pre generalizing acc with
  | nil =>
    rw [List.nil_append] at h
    cases hx : apiAttributeValue v with
    | none => rw [exportLoop_cons_fail read l r post acc v hl hx] at h; simp at h
    | some x =>
      rw [exportLoop_cons_assign read l r post acc v x hl hx] at h
      rw [exportLoop_index_frame read post _ out r h hpost, GoMap.index_assign, if_pos rfl]
  | cons e t ih =>
    obtain ⟨a, b⟩ := e
    rw [List.cons_append] at h
    cases ha : read a with
    | none =>
      rw [exportLoop_cons_skip read a b _ acc ha] at h
      exact ih acc h
    | some w =>
      cases hx : apiAttributeValue w with
      | none => rw [exportLoop_cons_fail read a b _ acc w ha hx] at h; simp at h
      | some x =>
        rw [exportLoop_cons_assign read a b _ acc w x ha hx] at h
        exact ih _ h

/-- A loop that exports no field returns the map it started with. -/
theorem exportLoop_skip_all (read : String → Option Value) (m : AttributeMap) (acc : GoMap)
    (h : ∀ e ∈ m, read e.1 = none) : exportLoop read m acc = (some acc, none) := by
  induction m with
  | nil => rfl
  | cons e t ih =>
    obtain ⟨a, b⟩ := e
    rw [exportLoop_cons_skip read a b t acc (h (a, b) (List.mem_cons_self _ _))]
    exact ih (fun e he => h e (List.mem_cons_of_mem _ he))

/-- With pairwise distinct API names, two visits of the same attribute map both
fail, or return maps with the same lookups and the same entries. -/
theorem exportLoop_perm (read : String → Option Value) (m m' : AttributeMap)
    (hnd : (m.map Prod.snd).Nodup) (hp : m.Perm m') :
    (∃ out out', exportLoop read m GoMap.empty = (some out, none) ∧
        exportLoop read m' GoMap.empty = (some out', none) ∧
        (∀ k, out.index k = out'.index k) ∧ out.entries.Perm out'.entries ∧
        out.len = out'.len) ∨
      (∃ msg msg', exportLoop read m GoMap.empty = (none, some msg) ∧
        exportLoop read m' GoMap.empty = (none, some msg')) := by
  have hnd' : (m'.map Prod.snd).Nodup := (hp.map Prod.snd).nodup_iff.mp hnd
  rcases exportLoop_shape read m GoMap.empty with ⟨out, hout⟩ | ⟨msg, hmsg⟩
  · left
    have hsup := exportLoop_ok_supported read m GoMap.empty out hout
    have hsup' : ∀ e ∈ m', ∀ v, read e.1 = some v → apiAttributeValue v ≠ none :=
      fun e he => hsup e (hp.mem_iff.mpr he)
    obtain ⟨o1, ho1, a1, b1, _, d1, _⟩ := exportLoop_exact read m hnd hsup
    obtain ⟨o2, ho2, a2, b2, _, d2, _⟩ := exportLoop_exact read m' hnd' hsup'
    have hidx : ∀ k, o1.index k = o2.index k := by
      intro k
      cases h1 : o1.index k with
      | some x =>
        obtain ⟨e, he, v, hek, hv, hx⟩ := b1 k x h1
        rw [← hek, a2 e (hp.mem_iff.mp he) v hv, hx]
      | none =>
        cases h2 : o2.index k with
        | none => rfl
        | some x =>
          obtain ⟨e, he, v, hek, hv, hx⟩ := b2 k x h2
          rw [← hek, a1 e (hp.mem_iff.mpr he) v hv, hx] at h1
          simp at h1
    have hperm := GoMap.perm_of_index_eq o1 o2 d1 d2 hidx
    refine ⟨o1, o2, ho1, ho2, hidx, hperm, hperm.length_eq⟩
  · right
    obtain ⟨e, he, v, hv, hx, _⟩ := exportLoop_error_mem read m GoMap.empty msg hmsg
    obtain ⟨_, _, _, _, _, hres⟩ :=
      exportLoop_fails read m' GoMap.empty ⟨e, hp.mem_iff.mp he, v, hv, hx⟩
    exact ⟨msg, _, hmsg, hres⟩

theorem presentValue_eq_some {σ ε : Type} (d : ResourceData σ ε) (s : σ) (l : String)
    (v : Value) :
    presentValue d s l = some v ↔ (d.GetOk s l).2 = true ∧ (d.GetOk s l).1 = v := by
  unfold presentValue
  cases h : (d.GetOk s l).2 <;> simp

theorem presentValue_eq_none {σ ε : Type} (d : ResourceData σ ε) (s : σ) (l : String) :
    presentValue d s l = none ↔ (d.GetOk s l).2 = false := by
  unfold presentValue
  cases h : (d.GetOk s l).2 <;> simp

theorem presentValue_isSome {σ ε : Type} (d : ResourceData σ ε) (s : σ) (l : String) :
    (presentValue d s l).isSome = (d.GetOk s l).2 := by
  unfold presentValue
  cases h : (d.GetOk s l).2 <;> simp

theorem changedValue_eq_some {σ ε : Type} (d : ResourceData σ ε) (s : σ) (l : String)
    (v : Value) :
    changedValue d s l = some v ↔ d.HasChange s l = true ∧ d.Get s l = v := by
  unfold changedValue
  cases h : d.HasChange s l <;> simp

theorem changedValue_eq_none {σ ε : Type} (d : ResourceData σ ε) (s : σ) (l : String) :
    changedValue d s l = none ↔ d.HasChange s l = false := by
  unfold changedValue
  cases h : d.HasChange s l <;> simp

theorem changedValue_isSome {σ ε : Type} (d : ResourceData σ ε) (s : σ) (l : String) :
    (changedValue d s l).isSome = d.HasChange s l := by
  unfold changedValue
  cases h : d.HasChange s l <;> simp

/-! ## Export for create -/

/-- What create returns when the API names are pairwise distinct and every
present mapped field has a supported type. -/
theorem create_exact {σ ε : Type} (d : ResourceData σ ε)
    (m : AttributeMap) (s : σ)
    (hnd : (m.map Prod.snd).Nodup)
    (hsup : ∀ e ∈ m, (d.GetOk s e.1).2 = true → apiAttributeValue (d.GetOk s e.1).1 ≠ none) :
    ∃ out, ResourceDataToApiAttributesCreate d m s = (some out, none) ∧
      (∀ e ∈ m, (d.GetOk s e.1).2 = true →
        out.index e.2 = apiAttributeValue (d.GetOk s e.1).1) ∧
      (∀ k x, out.index k = some x →
        ∃ e ∈ m, e.2 = k ∧ (d.GetOk s e.1).2 = true ∧
          apiAttributeValue (d.GetOk s e.1).1 = some x) ∧
      (∀ e ∈ m, (d.GetOk s e.1).2 = false → out.index e.2 = none) ∧
      out.keys.Nodup ∧
      out.len = (m.filter (fun e => (d.GetOk s e.1).2)).length := by
  have hsup2 : ∀ e ∈ m, ∀ v, presentValue d s e.1 = some v → apiAttributeValue v ≠ none := by
    intro e he v hv
    obtain ⟨hok, rfl⟩ := (presentValue_eq_some d s e.1 v).mp hv
    exact hsup e he hok
  obtain ⟨out, hout, h1, h2, h3, h4, h5⟩ := exportLoop_exact (presentValue d s) m hnd hsup2
  refine ⟨out, ?_, ?_, ?_, ?_, h4, ?_⟩
  · rw [ResourceDataToApiAttributesCreate, createLoop_eq_exportLoop]; exact hout
  · intro e he hok
    exact h1 e he _ ((presentValue_eq_some d s e.1 _).mpr ⟨hok, rfl⟩)
  · intro k x hk
    obtain ⟨e, he, v, hek, hread, hx⟩ := h2 k x hk
    obtain ⟨hok, rfl⟩ := (presentValue_eq_some d s e.1 v).mp hread
    exact ⟨e, he, hek, hok, hx⟩
  · intro e he hno
    exact h3 e he ((presentValue_eq_none d s e.1).mpr hno)
  · rw [h5]
    congr 1
    apply List.filter_congr
    intro e _
    exact presentValue_isSome d s e.1

/-- C1, as amended. For every attribute map whose API names are pairwise distinct
and every store in which every present mapped field is an `int`, a `bool` or a
`string`, `ResourceDataToApiAttributesCreate` returns a map and no error; the map
holds, for each entry whose field `GetOk` reports present, the text of the value
under the API name; every entry of the map is such a one; the API name of a field
that is not present is not a key; the keys are pairwise distinct and there are as
many entries as present mapped fields. -/
theorem create_exports_present_fields {σ ε : Type} (d : ResourceData σ ε)
    (m : AttributeMap) (s : σ)
    (hnd : (m.map Prod.snd).Nodup)
    (hsup : ∀ e ∈ m, (d.GetOk s e.1).2 = true → apiAttributeValue (d.GetOk s e.1).1 ≠ none) :
    ∃ out, ResourceDataToApiAttributesCreate d m s = (some out, none) ∧
      (∀ e ∈ m, (d.GetOk s e.1).2 = true →
        out.index e.2 = apiAttributeValue (d.GetOk s e.1).1) ∧
      (∀ k x, out.index k = some x →
        ∃ e ∈ m, e.2 = k ∧ (d.GetOk s e.1).2 = true ∧
          apiAttributeValue (d.GetOk s e.1).1 = some x) ∧
      (∀ e ∈ m, (d.GetOk s e.1).2 = false → out.index e.2 = none) ∧
      out.keys.Nodup ∧
      out.len = (m.filter (fun e => (d.GetOk s e.1).2)).length :=
  create_exact d m s hnd hsup

/-- The theorem of C1 at the queue example. -/
theorem create_exports_present_fields_witness :
    (queueMap.map Prod.snd).Nodup ∧
    (∀ e ∈ queueMap, (tableStore.GetOk ordersTable e.1).2 = true →
      apiAttributeValue (tableStore.GetOk ordersTable e.1).1 ≠ none) ∧
    ∃ out, ResourceDataToApiAttributesCreate tableStore queueMap ordersTable = (some out, none) ∧
      (∀ e ∈ queueMap, (tableStore.GetOk ordersTable e.1).2 = true →
        out.index e.2 = apiAttributeValue (tableStore.GetOk ordersTable e.1).1) ∧
      (∀ k x, out.index k = some x →
        ∃ e ∈ queueMap, e.2 = k ∧ (tableStore.GetOk ordersTable e.1).2 = true ∧
          apiAttributeValue (tableStore.GetOk ordersTable e.1).1 = some x) ∧
      (∀ e ∈ queueMap, (tableStore.GetOk ordersTable e.1).2 = false → out.index e.2 = none) ∧
      out.keys.Nodup ∧
      out.len = (queueMap.filter (fun e => (tableStore.GetOk ordersTable e.1).2)).length :=
  ⟨by decide, by decide,
    create_exports_present_fields tableStore queueMap ordersTable (by decide) (by decide)⟩

/-- C1 as stated fails when two fields share an API name: both fields of
`collidingMap` are present, create returns a map with the single entry of the
field visited last, and the entry claimed for the other field is not there. This
holds in either order of visit. It also fails on a store with a present field of
unsupported type, where create returns no map. -/
theorem create_collision_counterexample :
    (ResourceDataToApiAttributesCreate tableStore collidingMap collidingTable
        = (some ⟨[("Name", "2")]⟩, none) ∧
      ("first", "Name") ∈ collidingMap ∧
      tableStore.GetOk collidingTable "first" = (Value.string "1", true) ∧
      GoMap.index ⟨[("Name", "2")]⟩ "Name" ≠ apiAttributeValue (Value.string "1")) ∧
    (ResourceDataToApiAttributesCreate tableStore collidingMap.reverse collidingTable
        = (some ⟨[("Name", "1")]⟩, none) ∧
      ("second", "Name") ∈ collidingMap.reverse ∧
      tableStore.GetOk collidingTable "second" = (Value.string "2", true) ∧
      GoMap.index ⟨[("Name", "1")]⟩ "Name" ≠ apiAttributeValue (Value.string "2")) ∧
    (ResourceDataToApiAttributesCreate tableStore ratioMap ratioTable).1 = none := by
  decide

/-! ## Export for update -/

/-- What update returns when the API names are pairwise distinct and the current
value of every changed mapped field has a supported type. -/
theorem update_exact {σ ε : Type} (d : ResourceData σ ε) (m : AttributeMap) (s : σ)
    (hnd : (m.map Prod.snd).Nodup)
    (hsup : ∀ e ∈ m, d.HasChange s e.1 = true → apiAttributeValue (d.Get s e.1) ≠ none) :
    ∃ out, ResourceDataToApiAttributesUpdate d m s = (some out, none) ∧
      (∀ e ∈ m, d.HasChange s e.1 = true →
        out.index e.2 = apiAttributeValue (d.Get s e.1)) ∧
      (∀ k x, out.index k = some x →
        ∃ e ∈ m, e.2 = k ∧ d.HasChange s e.1 = true ∧
          apiAttributeValue (d.Get s e.1) = some x) ∧
      (∀ e ∈ m, d.HasChange s e.1 = false → out.index e.2 = none) ∧
      out.keys.Nodup ∧
      out.len = (m.filter (fun e => d.HasChange s e.1)).length := by
  have hsup2 : ∀ e ∈ m, ∀ v, changedValue d s e.1 = some v → apiAttributeValue v ≠ none := by
    intro e he v hv
    obtain ⟨hc, rfl⟩ := (changedValue_eq_some d s e.1 v).mp hv
    exact hsup e he hc
  obtain ⟨out, hout, h1, h2, h3, h4, h5⟩ := exportLoop_exact (changedValue d s) m hnd hsup2
  refine ⟨out, ?_, ?_, ?_, ?_, h4, ?_⟩
  · rw [ResourceDataToApiAttributesUpdate, updateLoop_eq_exportLoop]; exact hout
  · intro e he hc
    exact h1 e he _ ((changedValue_eq_some d s e.1 _).mpr ⟨hc, rfl⟩)
  · intro k x hk
    obtain ⟨e, he, v, hek, hread, hx⟩ := h2 k x hk
    obtain ⟨hc, rfl⟩ := (changedValue_eq_some d s e.1 v).mp hread
    exact ⟨e, he, hek, hc, hx⟩
  · intro e he hno
    exact h3 e he ((changedValue_eq_none d s e.1).mpr hno)
  · rw [h5]
    congr 1
    apply List.filter_congr
    intro e _
    exact changedValue_isSome d s e.1

/-- C2, as amended. For every attribute map whose API names are pairwise distinct
and every store in which the current value of every changed mapped field is an
`int`, a `bool` or a `string`, `ResourceDataToApiAttributesUpdate` returns a map
and no error; the map holds, for each entry whose field `HasChange` reports
changed, the text of the value read with `Get` under the API name, also when that
value is `0`, `false` or the empty string; every entry of the map is such a one;
the API name of an unchanged field is not a key; there are as many entries as
changed mapped fields. In the queue example with only `delay` changed to `45`
the result is the map with the single entry `DelaySeconds` to `45`, in whatever
order the attribute map is visited. -/
theorem update_exports_changed_fields :
    (∀ (σ ε : Type) (d : ResourceData σ ε) (m : AttributeMap) (s : σ),
      (m.map Prod.snd).Nodup →
      (∀ e ∈ m, d.HasChange s e.1 = true → apiAttributeValue (d.Get s e.1) ≠ none) →
      ∃ out, ResourceDataToApiAttributesUpdate d m s = (some out, none) ∧
        (∀ e ∈ m, d.HasChange s e.1 = true →
          out.index e.2 = apiAttributeValue (d.Get s e.1)) ∧
        (∀ e ∈ m, d.HasChange s e.1 = true →
          (d.Get s e.1 = Value.int 0 → out.index e.2 = some "0") ∧
          (d.Get s e.1 = Value.bool false → out.index e.2 = some "false") ∧
          (d.Get s e.1 = Value.string "" → out.index e.2 = some "")) ∧
        (∀ k x, out.index k = some x →
          ∃ e ∈ m, e.2 = k ∧ d.HasChange s e.1 = true ∧
            apiAttributeValue (d.Get s e.1) = some x) ∧
        (∀ e ∈ m, d.HasChange s e.1 = false → out.index e.2 = none) ∧
        out.keys.Nodup ∧
        out.len = (m.filter (fun e => d.HasChange s e.1)).length) ∧
    (∀ (σ ε : Type) (d : ResourceData σ ε) (s : σ) (m : AttributeMap),
      m.Perm queueMap →
      d.HasChange s "name" = false →
      d.HasChange s "delay" = true → d.Get s "delay" = Value.int 45 →
      d.HasChange s "fifo" = false →
      ResourceDataToApiAttributesUpdate d m s
        = (some ⟨[("DelaySeconds", "45")]⟩, none)) := by
  refine ⟨?_, ?_⟩
  · intro σ ε d m s hnd hsup
    obtain ⟨out, hout, h1, h2, h3, h4, h5⟩ := update_exact d m s hnd hsup
    refine ⟨out, hout, h1, ?_, h2, h3, h4, h5⟩
    intro e he hc
    refine ⟨?_, ?_, ?_⟩ <;> intro hv <;> rw [h1 e he hc, hv] <;> rfl
  · intro σ ε d s m hp hname hdelay hval hfifo
    have hnd : (m.map Prod.snd).Nodup :=
      (hp.map Prod.snd).nodup_iff.mpr (by decide)
    have hsup : ∀ e ∈ m, d.HasChange s e.1 = true →
        apiAttributeValue (d.Get s e.1) ≠ none := by
      intro e he hc
      have hq : e ∈ queueMap := hp.mem_iff.mp he
      simp only [queueMap, List.mem_cons, List.mem_singleton, List.not_mem_nil, or_false] at hq
      rcases hq with rfl | rfl | rfl
      · simp [hname] at hc
      · simp [hval, apiAttributeValue]
      · simp [hfifo] at hc
    obtain ⟨out, hout, h1, _, _, _, h5⟩ := update_exact d m s hnd hsup
    have hlen : out.len = 1 := by
      rw [h5, (hp.filter _).length_eq]
      simp [queueMap, List.filter, hname, hdelay, hfifo]
    have hidx : out.index "DelaySeconds" = some "45" := by
      have := h1 ("delay", "DelaySeconds") (hp.mem_iff.mpr (by decide)) hdelay
      rw [this, hval]
      decide
    rw [hout, GoMap.eq_single out "DelaySeconds" "45" hlen hidx]

/-- The theorem of C2 at the queue example, visited in the order written. -/
theorem update_exports_changed_fields_witness :
    ((queueMap.map Prod.snd).Nodup ∧
      (∀ e ∈ queueMap, tableStore.HasChange delayChangedTable e.1 = true →
        apiAttributeValue (tableStore.Get delayChangedTable e.1) ≠ none) ∧
      ∃ out, ResourceDataToApiAttributesUpdate tableStore queueMap delayChangedTable
          = (some out, none) ∧
        (∀ e ∈ queueMap, tableStore.HasChange delayChangedTable e.1 = true →
          out.index e.2 = apiAttributeValue (tableStore.Get delayChangedTable e.1))) ∧
    (queueMap.Perm queueMap ∧
      tableStore.HasChange delayChangedTable "name" = false ∧
      tableStore.HasChange delayChangedTable "delay" = true ∧
      tableStore.Get delayChangedTable "delay" = Value.int 45 ∧
      tableStore.HasChange delayChangedTable "fifo" = false ∧
      ResourceDataToApiAttributesUpdate tableStore queueMap delayChangedTable
        = (some ⟨[("DelaySeconds", "45")]⟩, none)) := by
  refine ⟨⟨by decide, by decide, ?_⟩, List.Perm.refl _, by decide, by decide, by decide,
    by decide, ?_⟩
  · obtain ⟨out, hout, h1, _⟩ :=
      update_exports_changed_fields.1 _ _ tableStore queueMap delayChangedTable
        (by decide) (by decide)
    exact ⟨out, hout, h1⟩
  · exact update_exports_changed_fields.2 _ _ tableStore delayChangedTable queueMap
      (List.Perm.refl _) (by decide) (by decide) (by decide) (by decide)

/-- C2 as stated fails when two fields share an API name: both fields of
`collidingMap` have changed, update returns a map with the single entry of the
field visited last, and the entry claimed for the other field is not there. This
holds in either order of visit. It also fails on a store with a changed field of
unsupported type, where update returns no map. -/
theorem update_collision_counterexample :
    (ResourceDataToApiAttributesUpdate tableStore collidingMap collidingTable
        = (some ⟨[("Name", "2")]⟩, none) ∧
      ("first", "Name") ∈ collidingMap ∧
      tableStore.HasChange collidingTable "first" = true ∧
      tableStore.Get collidingTable "first" = Value.string "1" ∧
      GoMap.index ⟨[("Name", "2")]⟩ "Name" ≠ apiAttributeValue (Value.string "1")) ∧
    (ResourceDataToApiAttributesUpdate tableStore collidingMap.reverse collidingTable
        = (some ⟨[("Name", "1")]⟩, none) ∧
      ("second", "Name") ∈ collidingMap.reverse ∧
      tableStore.HasChange collidingTable "second" = true ∧
      tableStore.Get collidingTable "second" = Value.string "2" ∧
      GoMap.index ⟨[("Name", "1")]⟩ "Name" ≠ apiAttributeValue (Value.string "2")) ∧
    (ResourceDataToApiAttributesUpdate tableStore ratioMap ratioTable).1 = none := by
  decide

/-! ## Import -/

theorem import_cons_absent {σ ε : Type} (d : ResourceData σ ε) (l r : String)
    (t : AttributeMap) (R : GoMap) (s : σ) (h : R.index r = none) :
    ApiAttributesToResourceData d ((l, r) :: t) R s = ApiAttributesToResourceData d t R s := by
  simp [ApiAttributesToResourceData, h]

theorem import_cons_set {σ ε : Type} (d : ResourceData σ ε) (l r v : String)
    (t : AttributeMap) (R : GoMap) (s : σ) (h : R.index r = some v)
    (hs : (d.Set s l v).2 = none) :
    ApiAttributesToResourceData d ((l, r) :: t) R s
      = ApiAttributesToResourceData d t R (d.Set s l v).1 := by
  rcases hset : d.Set s l v with ⟨s', err⟩
  rw [hset] at hs
  simp only at hs
  subst hs
  simp [ApiAttributesToResourceData, h, hset]

theorem import_cons_fail {σ ε : Type} (d : ResourceData σ ε) (l r v : String)
    (t : AttributeMap) (R : GoMap) (s : σ) (err : ε) (h : R.index r = some v)
    (hs : (d.Set s l v).2 = some err) :
    ApiAttributesToResourceData d ((l, r) :: t) R s
      = ((d.Set s l v).1,
          some ⟨"error setting " ++ l ++ ": " ++ d.ErrorText err, err⟩) := by
  rcases hset : d.Set s l v with ⟨s', e'⟩
  rw [hset] at hs
  simp only at hs
  subst hs
  simp [ApiAttributesToResourceData, h, hset]

/-- The journaled store runs import as the store does, and appends the calls. -/
theorem import_journaled {σ ε : Type} (d : ResourceData σ ε) (m : AttributeMap)
    (R : GoMap) (s : σ) (log : List SetCall) :
    ApiAttributesToResourceData d.journaled m R (s, log)
      = (((ApiAttributesToResourceData d m R s).1, log ++ importCalls d m R s),
          (ApiAttributesToResourceData d m R s).2) := by
  induction m generalizing s log with
  | nil => simp [ApiAttributesToResourceData, importCalls]
  | cons e t ih =>
    obtain ⟨l, r⟩ := e
    cases hr : R.index r with
    | none =>
      simp only [importCalls]
      rw [import_cons_absent d.journaled l r t R _ hr, import_cons_absent d.journaled l r t R _ hr,
        import_cons_absent d l r t R s hr, ih s log, ih s []]
      simp [importCalls]
    | some v =>
      cases hs : (d.Set s l v).2 with
      | none =>
        have hj : ∀ lg, (d.journaled.Set (s, lg) l v).2 = none := fun lg => hs
        have hj1 : ∀ lg, (d.journaled.Set (s, lg) l v).1
            = ((d.Set s l v).1, lg ++ [⟨l, v, false⟩]) := by
          intro lg
          simp [ResourceData.journaled, hs]
        simp only [importCalls]
        rw [import_cons_set d.journaled l r v t R _ hr (hj log),
          import_cons_set d.journaled l r v t R _ hr (hj []),
          import_cons_set d l r v t R s hr hs, hj1, hj1, ih, ih (d.Set s l v).1 ([] ++ _)]
        simp [importCalls]
      | some err =>
        have hj : ∀ lg, (d.journaled.Set (s, lg) l v).2 = some err := fun lg => hs
        have hj1 : ∀ lg, (d.journaled.Set (s, lg) l v).1
            = ((d.Set s l v).1, lg ++ [⟨l, v, true⟩]) := by
          intro lg
          simp [ResourceData.journaled, hs]
        simp only [importCalls]
        rw [import_cons_fail d.journaled l r v t R _ err hr (hj log),
          import_cons_fail d.journaled l r v t R _ err hr (hj []),
          import_cons_fail d l r v t R s err hr hs, hj1, hj1]
        simp [ResourceData.journaled]

theorem importCalls_nil {σ ε : Type} (d : ResourceData σ ε) (R : GoMap) (s : σ) :
    importCalls d [] R s = [] := rfl

theorem importCalls_cons_absent {σ ε : Type} (d : ResourceData σ ε) (l r : String)
    (t : AttributeMap) (R : GoMap) (s : σ) (h : R.index r = none) :
    importCalls d ((l, r) :: t) R s = importCalls d t R s := by
  simp only [importCalls]
  rw [import_cons_absent d.journaled l r t R _ h]

theorem importCalls_cons_set {σ ε : Type} (d : ResourceData σ ε) (l r v : String)
    (t : AttributeMap) (R : GoMap) (s : σ) (h : R.index r = some v)
    (hs : (d.Set s l v).2 = none) :
    importCalls d ((l, r) :: t) R s = ⟨l, v, false⟩ :: importCalls d t R (d.Set s l v).1 := by
  have hj : (d.journaled.Set (s, []) l v).2 = none := hs
  have hj1 : (d.journaled.Set (s, []) l v).1 = ((d.Set s l v).1, [⟨l, v, false⟩]) := by
    simp [ResourceData.journaled, hs]
  unfold importCalls
  rw [import_cons_set d.journaled l r v t R _ h hj, hj1, import_journaled]
  simp [importCalls]

theorem importCalls_cons_fail {σ ε : Type} (d : ResourceData σ ε) (l r v : String)
    (t : AttributeMap) (R : GoMap) (s : σ) (err : ε) (h : R.index r = some v)
    (hs : (d.Set s l v).2 = some err) :
    importCalls d ((l, r) :: t) R s = [⟨l, v, true⟩] := by
  have hj : (d.journaled.Set (s, []) l v).2 = some err := hs
  have hj1 : (d.journaled.Set (s, []) l v).1 = ((d.Set s l v).1, [⟨l, v, true⟩]) := by
    simp [ResourceData.journaled, hs]
  unfold importCalls
  rw [import_cons_fail d.journaled l r v t R _ err h hj, hj1]

theorem expectedCalls_cons_absent (l r : String) (t : AttributeMap) (R : GoMap)
    (h : R.index r = none) : expectedCalls ((l, r) :: t) R = expectedCalls t R := by
  simp [expectedCalls, List.filterMap_cons, h]

theorem expectedCalls_cons_some (l r v : String) (t : AttributeMap) (R : GoMap)
    (h : R.index r = some v) :
    expectedCalls ((l, r) :: t) R = ⟨l, v, false⟩ :: expectedCalls t R := by
  simp [expectedCalls, List.filterMap_cons, h]

/-- When import returns no error, its calls are the expected ones, none failed, and
the store is left as these calls leave it. -/
theorem import_ok_calls {σ ε : Type} (d : ResourceData σ ε) (m : AttributeMap)
    (R : GoMap) (s : σ) (h : (ApiAttributesToResourceData d m R s).2 = none) :
    importCalls d m R s = expectedCalls m R ∧
      (ApiAttributesToResourceData d m R s).1 = applyCalls d s (expectedCalls m R) := by
  induction m generalizing s with
  | nil => exact ⟨rfl, rfl⟩
  | cons e t ih =>
    obtain ⟨l, r⟩ := e
    cases hr : R.index r with
    | none =>
      rw [import_cons_absent d l r t R s hr] at h ⊢
      rw [importCalls_cons_absent d l r t R s hr, expectedCalls_cons_absent l r t R hr]
      exact ih s h
    | some v =>
      cases hs : (d.Set s l v).2 with
      | none =>
        rw [import_cons_set d l r v t R s hr hs] at h ⊢
        rw [importCalls_cons_set d l r v t R s hr hs, expectedCalls_cons_some l r v t R hr]
        obtain ⟨h1, h2⟩ := ih _ h
        exact ⟨by rw [h1], by rw [h2]; rfl⟩
      | some err =>
        rw [import_cons_fail d l r v t R s err hr hs] at h
        simp at h

/-- Import returns an error exactly when one of its calls failed. -/
theorem import_error_iff_failed {σ ε : Type} (d : ResourceData σ ε) (m : AttributeMap)
    (R : GoMap) (s : σ) :
    (ApiAttributesToResourceData d m R s).2 ≠ none ↔
      ∃ c ∈ importCalls d m R s, c.failed = true := by
  induction m generalizing s with
  | nil => simp [ApiAttributesToResourceData, importCalls_nil]
  | cons e t ih =>
    obtain ⟨l, r⟩ := e
    cases hr : R.index r with
    | none =>
      rw [import_cons_absent d l r t R s hr, importCalls_cons_absent d l r t R s hr]
      exact ih s
    | some v =>
      cases hs : (d.Set s l v).2 with
      | none =>
        rw [import_cons_set d l r v t R s hr hs, importCalls_cons_set d l r v t R s hr hs, ih]
        simp
      | some err =>
        rw [import_cons_fail d l r v t R s err hr hs, importCalls_cons_fail d l r v t R s err hr hs]
        simp

/-- Every call of import sets the field of an entry of the attribute map to the
value found under the entry's API name. -/
theorem importCalls_mem {σ ε : Type} (d : ResourceData σ ε) (m : AttributeMap)
    (R : GoMap) (s : σ) (c : SetCall) (hc : c ∈ importCalls d m R s) :
    ∃ e ∈ m, e.1 = c.tfAttributeName ∧ R.index e.2 = some c.value := by
  induction m generalizing s with
  | nil => simp [importCalls_nil] at hc
  | cons e t ih =>
    obtain ⟨l, r⟩ := e
    cases hr : R.index r with
    | none =>
      rw [importCalls_cons_absent d l r t R s hr] at hc
      obtain ⟨e, he, hh⟩ := ih s hc
      exact ⟨e, List.mem_cons_of_mem _ he, hh⟩
    | some v =>
      cases hs : (d.Set s l v).2 with
      | none =>
        rw [importCalls_cons_set d l r v t R s hr hs] at hc
        rcases List.mem_cons.mp hc with rfl | hct
        · exact ⟨(l, r), List.mem_cons_self _ _, rfl, hr⟩
        · obtain ⟨e, he, hh⟩ := ih _ hct
          exact ⟨e, List.mem_cons_of_mem _ he, hh⟩
      | some err =>
        rw [importCalls_cons_fail d l r v t R s err hr hs] at hc
        rw [List.mem_singleton] at hc
        subst hc
        exact ⟨(l, r), List.mem_cons_self _ _, rfl, hr⟩

/-- Import stops at the first failing set: the entries after it are not looked at. -/
theorem import_fail_at {σ ε : Type} (d : ResourceData σ ε) (pre post : AttributeMap)
    (l r v : String) (R : GoMap) (s : σ) (err : ε)
    (hpre : (ApiAttributesToResourceData d pre R s).2 = none)
    (hr : R.index r = some v)
    (hs : (d.Set (ApiAttributesToResourceData d pre R s).1 l v).2 = some err) :
    ApiAttributesToResourceData d (pre ++ (l, r) :: post) R s
        = ((d.Set (ApiAttributesToResourceData d pre R s).1 l v).1,
            some ⟨"error setting " ++ l ++ ": " ++ d.ErrorText err, err⟩) ∧
      importCalls d (pre ++ (l, r) :: post) R s = expectedCalls pre R ++ [⟨l, v, true⟩] := by
  induction pre generalizing s with
  | nil =>
    exact ⟨import_cons_fail d l r v post R s err hr hs,
      importCalls_cons_fail d l r v post R s err hr hs⟩
  | cons e t ih =>
    obtain ⟨a, b⟩ := e
    rw [List.cons_append]
    cases hb : R.index b with
    | none =>
      rw [import_cons_absent d a b t R s hb] at hpre hs
      rw [import_cons_absent d a b _ R s hb, importCalls_cons_absent d a b _ R s hb,
        import_cons_absent d a b t R s hb, expectedCalls_cons_absent a b t R hb]
      exact ih s hpre hs
    | some w =>
      cases hsa : (d.Set s a w).2 with
      | none =>
        rw [import_cons_set d a b w t R s hb hsa] at hpre hs
        rw [import_cons_set d a b w _ R s hb hsa, importCalls_cons_set d a b w _ R s hb hsa,
          import_cons_set d a b w t R s hb hsa, expectedCalls_cons_some a b w t R hb]
        obtain ⟨h1, h2⟩ := ih _ hpre hs
        exact ⟨h1, by rw [h2]; rfl⟩
      | some err' =>
        rw [import_cons_fail d a b w t R s err' hb hsa] at hpre
        simp at hpre

/-- Import looks at the API attributes only under the API names of the attribute
map. -/
theorem import_congr {σ ε : Type} (d : ResourceData σ ε) (m : AttributeMap)
    (R R' : GoMap) (s : σ) (h : ∀ e ∈ m, R.index e.2 = R'.index e.2) :
    ApiAttributesToResourceData d m R s = ApiAttributesToResourceData d m R' s := by
  induction m generalizing s with
  | nil => rfl
  | cons e t ih =>
    obtain ⟨l, r⟩ := e
    have ht : ∀ e ∈ t, R.index e.2 = R'.index e.2 := fun e he => h e (List.mem_cons_of_mem _ he)
    have hr' : R.index r = R'.index r := h (l, r) (List.mem_cons_self _ _)
    cases hr : R.index r with
    | none =>
      rw [import_cons_absent d l r t R s hr, import_cons_absent d l r t R' s (hr' ▸ hr)]
      exact ih s ht
    | some v =>
      cases hs : (d.Set s l v).2 with
      | none =>
        rw [import_cons_set d l r v t R s hr hs, import_cons_set d l r v t R' s (hr' ▸ hr) hs]
        exact ih _ ht
      | some err =>
        rw [import_cons_fail d l r v t R s err hr hs,
          import_cons_fail d l r v t R' s err (hr' ▸ hr) hs]

/-- A failing import fails at one entry: the sets of the entries before it
succeeded, the set of that entry failed, and the error names its field. -/
theorem import_error_decompose {σ ε : Type} (d : ResourceData σ ε) (m : AttributeMap)
    (R : GoMap) (s : σ) (w : WrapError ε)
    (h : (ApiAttributesToResourceData d m R s).2 = some w) :
    ∃ pre post l r v, m = pre ++ (l, r) :: post ∧
      (ApiAttributesToResourceData d pre R s).2 = none ∧
      R.index r = some v ∧
      (d.Set (ApiAttributesToResourceData d pre R s).1 l v).2 = some w.unwrap ∧
      w.text = "error setting " ++ l ++ ": " ++ d.ErrorText w.unwrap := by
  induction m generalizing s with
  | nil => simp [ApiAttributesToResourceData] at h
  | cons e t ih =>
    obtain ⟨a, b⟩ := e
    cases hb : R.index b with
    | none =>
      rw [import_cons_absent d a b t R s hb] at h
      obtain ⟨pre, post, l, r, v, hm, h1, h2, h3, h4⟩ := ih s h
      refine ⟨(a, b) :: pre, post, l, r, v, by rw [hm]; rfl, ?_, h2, ?_, h4⟩
      · rw [import_cons_absent d a b pre R s hb]; exact h1
      · rw [import_cons_absent d a b pre R s hb]; exact h3
    | some x =>
      cases hs : (d.Set s a x).2 with
      | none =>
        rw [import_cons_set d a b x t R s hb hs] at h
        obtain ⟨pre, post, l, r, v, hm, h1, h2, h3, h4⟩ := ih _ h
        refine ⟨(a, b) :: pre, post, l, r, v, by rw [hm]; rfl, ?_, h2, ?_, h4⟩
        · rw [import_cons_set d a b x pre R s hb hs]; exact h1
        · rw [import_cons_set d a b x pre R s hb hs]; exact h3
      | some err =>
        rw [import_cons_fail d a b x t R s err hb hs] at h
        simp only [Option.some.injEq] at h
        subst h
        exact ⟨[], t, a, b, x, rfl, rfl, hb, hs, rfl⟩

/-- C3. When every set call that import makes succeeds (so on every store whose
`Set` never fails), `ApiAttributesToResourceData` returns no error; its set calls
are, in the order of the visit, one call for each entry of the attribute map whose
API name is a key of the API attributes, with the string found there unmodified;
the store is left as these calls leave it; and no call names any other field: a
field whose entries all have API names absent from the API attributes, or that has
no entry at all, is never set. -/
theorem import_sets_exactly_mapped {σ ε : Type} (d : ResourceData σ ε) (m : AttributeMap)
    (apiAttributes : GoMap) (s : σ)
    (hall : ∀ c ∈ importCalls d m apiAttributes s, c.failed = false) :
    (ApiAttributesToResourceData d m apiAttributes s).2 = none ∧
    importCalls d m apiAttributes s
      = m.filterMap (fun e => (apiAttributes.index e.2).map (fun v => ⟨e.1, v, false⟩)) ∧
    (ApiAttributesToResourceData d m apiAttributes s).1
      = applyCalls d s (importCalls d m apiAttributes s) ∧
    (∀ c ∈ importCalls d m apiAttributes s,
      ∃ e ∈ m, e.1 = c.tfAttributeName ∧ apiAttributes.index e.2 = some c.value) ∧
    (∀ f : String, (∀ e ∈ m, e.1 = f → apiAttributes.index e.2 = none) →
      ∀ c ∈ importCalls d m apiAttributes s, c.tfAttributeName ≠ f) := by
  have hnone : (ApiAttributesToResourceData d m apiAttributes s).2 = none := by
    by_contra hne
    obtain ⟨c, hc, hf⟩ := (import_error_iff_failed d m apiAttributes s).mp hne
    rw [hall c hc] at hf
    exact absurd hf (by decide)
  obtain ⟨h1, h2⟩ := import_ok_calls d m apiAttributes s hnone
  refine ⟨hnone, h1, by rw [h1]; exact h2, importCalls_mem d m apiAttributes s, ?_⟩
  intro f hf c hc hcf
  obtain ⟨e, he, hef, hidx⟩ := importCalls_mem d m apiAttributes s c hc
  rw [hf e he (hef.trans hcf)] at hidx
  exact absurd hidx (by simp)

/-- The theorem of C3 at the queue map and a partial response: one call, for
`delay`. -/
theorem import_sets_exactly_mapped_witness :
    (∀ c ∈ importCalls tableStore queueMap sparseAttributes ordersTable, c.failed = false) ∧
    importCalls tableStore queueMap sparseAttributes ordersTable = [⟨"delay", "30", false⟩] ∧
    (ApiAttributesToResourceData tableStore queueMap sparseAttributes ordersTable).2 = none ∧
    (ApiAttributesToResourceData tableStore queueMap sparseAttributes ordersTable).1
      = applyCalls tableStore ordersTable
          (importCalls tableStore queueMap sparseAttributes ordersTable) :=
  ⟨by decide, by decide,
    (import_sets_exactly_mapped tableStore queueMap sparseAttributes ordersTable
      (by decide)).1,
    (import_sets_exactly_mapped tableStore queueMap sparseAttributes ordersTable
      (by decide)).2.2.1⟩

/-- C4. If the sets of the entries visited first succeed and the set of the next
entry fails, `ApiAttributesToResourceData` returns the error with the text
`error setting <field>: <cause>` wrapping the store's error; the calls made are
those of the earlier entries and the failing one, none for a later entry; and the
store is left as the earlier sets and the failing call leave it. Every error
returned arises so, and an error is returned exactly when one of the set calls
made fails. -/
theorem import_fails_fast :
    (∀ (σ ε : Type) (d : ResourceData σ ε) (pre post : AttributeMap) (l r v : String)
        (apiAttributes : GoMap) (s : σ) (err : ε),
      (ApiAttributesToResourceData d pre apiAttributes s).2 = none →
      apiAttributes.index r = some v →
      (d.Set (ApiAttributesToResourceData d pre apiAttributes s).1 l v).2 = some err →
      ApiAttributesToResourceData d (pre ++ (l, r) :: post) apiAttributes s
          = ((d.Set (applyCalls d s (importCalls d pre apiAttributes s)) l v).1,
              some ⟨"error setting " ++ l ++ ": " ++ d.ErrorText err, err⟩) ∧
        importCalls d (pre ++ (l, r) :: post) apiAttributes s
          = importCalls d pre apiAttributes s ++ [⟨l, v, true⟩] ∧
        importCalls d pre apiAttributes s
          = pre.filterMap
              (fun e => (apiAttributes.index e.2).map (fun v => ⟨e.1, v, false⟩))) ∧
    (∀ (σ ε : Type) (d : ResourceData σ ε) (m : AttributeMap) (apiAttributes : GoMap)
        (s : σ) (w : WrapError ε),
      (ApiAttributesToResourceData d m apiAttributes s).2 = some w →
      ∃ pre post l r v, m = pre ++ (l, r) :: post ∧
        (ApiAttributesToResourceData d pre apiAttributes s).2 = none ∧
        apiAttributes.index r = some v ∧
        (d.Set (ApiAttributesToResourceData d pre apiAttributes s).1 l v).2
          = some w.unwrap ∧
        w.text = "error setting " ++ l ++ ": " ++ d.ErrorText w.unwrap) ∧
    (∀ (σ ε : Type) (d : ResourceData σ ε) (m : AttributeMap) (apiAttributes : GoMap)
        (s : σ),
      (ApiAttributesToResourceData d m apiAttributes s).2 ≠ none ↔
        ∃ c ∈ importCalls d m apiAttributes s, c.failed = true) := by
  refine ⟨?_, ?_, ?_⟩
  · intro σ ε d pre post l r v R s err hpre hr hs
    obtain ⟨h1, h2⟩ := import_fail_at d pre post l r v R s err hpre hr hs
    obtain ⟨h3, h4⟩ := import_ok_calls d pre R s hpre
    refine ⟨?_, ?_, h3⟩
    · rw [h1, h3, h4]
    · rw [h2, h3]
  · intro σ ε d m R s w h
    exact import_error_decompose d m R s w h
  · intro σ ε d m R s
    exact import_error_iff_failed d m R s

/-- The theorem of C4 at a map whose second field the store does not declare, on
the store with nothing configured: the first field is set and stays set, the second
fails, the third is not attempted. -/
theorem import_fails_fast_witness :
    ((ApiAttributesToResourceData tableStore [("name", "QueueName")] queueAttributes
        unsetTable).2 = none ∧
      queueAttributes.index "DelaySeconds" = some "30" ∧
      (tableStore.Set (ApiAttributesToResourceData tableStore [("name", "QueueName")]
          queueAttributes unsetTable).1 "timeout" "30").2
        = some "Invalid address to set: timeout") ∧
    (ApiAttributesToResourceData tableStore
          ([("name", "QueueName")] ++ ("timeout", "DelaySeconds") :: [("fifo", "FifoQueue")])
          queueAttributes unsetTable
        = ((tableStore.Set (applyCalls tableStore unsetTable
              (importCalls tableStore [("name", "QueueName")] queueAttributes unsetTable))
              "timeout" "30").1,
            some ⟨"error setting " ++ "timeout" ++ ": "
              ++ tableStore.ErrorText "Invalid address to set: timeout",
              "Invalid address to set: timeout"⟩) ∧
      importCalls tableStore
          ([("name", "QueueName")] ++ ("timeout", "DelaySeconds") :: [("fifo", "FifoQueue")])
          queueAttributes unsetTable
        = importCalls tableStore [("name", "QueueName")] queueAttributes unsetTable
          ++ [⟨"timeout", "30", true⟩] ∧
      importCalls tableStore [("name", "QueueName")] queueAttributes unsetTable
        = [("name", "QueueName")].filterMap
            (fun e => (queueAttributes.index e.2).map (fun v => ⟨e.1, v, false⟩))) ∧
    (ApiAttributesToResourceData tableStore undeclaredMap queueAttributes unsetTable
        = ([("name", ⟨Value.string "orders", Value.string "", false⟩),
            ("delay", ⟨Value.int 0, Value.int 0, false⟩),
            ("fifo", ⟨Value.bool false, Value.bool false, false⟩)],
            some ⟨"error setting timeout: Invalid address to set: timeout",
              "Invalid address to set: timeout"⟩) ∧
      importCalls tableStore undeclaredMap queueAttributes unsetTable
        = [⟨"name", "orders", false⟩, ⟨"timeout", "30", true⟩]) :=
  ⟨⟨by decide, by decide, by decide⟩,
    import_fails_fast.1 _ _ tableStore [("name", "QueueName")] [("fifo", "FifoQueue")]
      "timeout" "DelaySeconds" "30" queueAttributes unsetTable
      "Invalid address to set: timeout" (by decide) (by decide) (by decide),
    ⟨by decide, by decide⟩⟩

/-! ## Unsupported types -/

/-- C5, as amended. If the entries visited first export only values of supported
types and the next entry's field is present (for create) or changed (for update)
with a value that is no `int`, `bool` or `string`, both exports return the nil map
and the error `attribute <field> is of unsupported type: <type>` for that field,
the first such field visited, and its dynamic type. In whatever order the map is
visited, if some present (changed) mapped field has such a value, create (update)
returns the nil map and this error for one of those fields. -/
theorem export_unsupported_type :
    (∀ (σ ε : Type) (d : ResourceData σ ε) (pre post : AttributeMap) (l r goType : String)
        (s : σ),
      (∀ e ∈ pre, (d.GetOk s e.1).2 = true → apiAttributeValue (d.GetOk s e.1).1 ≠ none) →
      d.GetOk s l = (Value.other goType, true) →
      ResourceDataToApiAttributesCreate d (pre ++ (l, r) :: post) s
        = (none, some ("attribute " ++ l ++ " is of unsupported type: " ++ goType))) ∧
    (∀ (σ ε : Type) (d : ResourceData σ ε) (pre post : AttributeMap) (l r goType : String)
        (s : σ),
      (∀ e ∈ pre, d.HasChange s e.1 = true → apiAttributeValue (d.Get s e.1) ≠ none) →
      d.HasChange s l = true → d.Get s l = Value.other goType →
      ResourceDataToApiAttributesUpdate d (pre ++ (l, r) :: post) s
        = (none, some ("attribute " ++ l ++ " is of unsupported type: " ++ goType))) ∧
    (∀ (σ ε : Type) (d : ResourceData σ ε) (m : AttributeMap) (s : σ),
      (∃ e ∈ m, ∃ goType, d.GetOk s e.1 = (Value.other goType, true)) →
      ∃ e ∈ m, ∃ goType, d.GetOk s e.1 = (Value.other goType, true) ∧
        ResourceDataToApiAttributesCreate d m s
          = (none, some ("attribute " ++ e.1 ++ " is of unsupported type: " ++ goType))) ∧
    (∀ (σ ε : Type) (d : ResourceData σ ε) (m : AttributeMap) (s : σ),
      (∃ e ∈ m, ∃ goType, d.HasChange s e.1 = true ∧ d.Get s e.1 = Value.other goType) →
      ∃ e ∈ m, ∃ goType, d.HasChange s e.1 = true ∧ d.Get s e.1 = Value.other goType ∧
        ResourceDataToApiAttributesUpdate d m s
          = (none, some ("attribute " ++ e.1 ++ " is of unsupported type: " ++ goType))) := by
  refine ⟨?_, ?_, ?_, ?_⟩
  · intro σ ε d pre post l r goType s hpre hl
    rw [ResourceDataToApiAttributesCreate, createLoop_eq_exportLoop]
    have hread : presentValue d s l = some (Value.other goType) :=
      (presentValue_eq_some d s l _).mpr (by rw [hl]; exact ⟨rfl, rfl⟩)
    have := exportLoop_first_unsupported (presentValue d s) pre post l r (Value.other goType)
      GoMap.empty ?_ hread rfl
    · rw [this]; rfl
    · intro e he w hw
      obtain ⟨hok, rfl⟩ := (presentValue_eq_some d s e.1 w).mp hw
      exact hpre e he hok
  · intro σ ε d pre post l r goType s hpre hc hl
    rw [ResourceDataToApiAttributesUpdate, updateLoop_eq_exportLoop]
    have hread : changedValue d s l = some (Value.other goType) :=
      (changedValue_eq_some d s l _).mpr ⟨hc, hl⟩
    have := exportLoop_first_unsupported (changedValue d s) pre post l r (Value.other goType)
      GoMap.empty ?_ hread rfl
    · rw [this]; rfl
    · intro e he w hw
      obtain ⟨hch, rfl⟩ := (changedValue_eq_some d s e.1 w).mp hw
      exact hpre e he hch
  · intro σ ε d m s ⟨e, he, goType, hg⟩
    have hex : ∃ e ∈ m, ∃ v, presentValue d s e.1 = some v ∧ apiAttributeValue v = none :=
      ⟨e, he, Value.other goType,
        (presentValue_eq_some d s e.1 _).mpr (by rw [hg]; exact ⟨rfl, rfl⟩), rfl⟩
    obtain ⟨e', he', v, hv, hx, hres⟩ := exportLoop_fails (presentValue d s) m GoMap.empty hex
    obtain ⟨t, rfl⟩ := (apiAttributeValue_eq_none v).mp hx
    obtain ⟨hok, hval⟩ := (presentValue_eq_some d s e'.1 _).mp hv
    refine ⟨e', he', t, Prod.ext hval hok, ?_⟩
    rw [ResourceDataToApiAttributesCreate, createLoop_eq_exportLoop, hres]
    rfl
  · intro σ ε d m s ⟨e, he, goType, hc, hg⟩
    have hex : ∃ e ∈ m, ∃ v, changedValue d s e.1 = some v ∧ apiAttributeValue v = none :=
      ⟨e, he, Value.other goType, (changedValue_eq_some d s e.1 _).mpr ⟨hc, hg⟩, rfl⟩
    obtain ⟨e', he', v, hv, hx, hres⟩ := exportLoop_fails (changedValue d s) m GoMap.empty hex
    obtain ⟨t, rfl⟩ := (apiAttributeValue_eq_none v).mp hx
    obtain ⟨hch, hval⟩ := (changedValue_eq_some d s e'.1 _).mp hv
    refine ⟨e', he', t, hch, hval, ?_⟩
    rw [ResourceDataToApiAttributesUpdate, updateLoop_eq_exportLoop, hres]
    rfl

/-- The theorem of C5 at a store with a `float64` field: no map is returned, although
`name` was exported before the field was met. -/
theorem export_unsupported_type_witness :
    ((∀ e ∈ [("name", "QueueName")], (tableStore.GetOk ratioTable e.1).2 = true →
        apiAttributeValue (tableStore.GetOk ratioTable e.1).1 ≠ none) ∧
      tableStore.GetOk ratioTable "ratio" = (Value.other "float64", true) ∧
      ResourceDataToApiAttributesCreate tableStore
          ([("name", "QueueName")] ++ ("ratio", "SamplingRatio") :: [("fifo", "FifoQueue")])
          ratioTable
        = (none, some ("attribute " ++ "ratio" ++ " is of unsupported type: " ++ "float64"))) ∧
    ((∀ e ∈ [("name", "QueueName")], tableStore.HasChange ratioTable e.1 = true →
        apiAttributeValue (tableStore.Get ratioTable e.1) ≠ none) ∧
      tableStore.HasChange ratioTable "ratio" = true ∧
      tableStore.Get ratioTable "ratio" = Value.other "float64" ∧
      ResourceDataToApiAttributesUpdate tableStore
          ([("name", "QueueName")] ++ ("ratio", "SamplingRatio") :: [("fifo", "FifoQueue")])
          ratioTable
        = (none, some ("attribute " ++ "ratio" ++ " is of unsupported type: " ++ "float64"))) ∧
    ResourceDataToApiAttributesCreate tableStore ratioMap ratioTable
      = (none, some "attribute ratio is of unsupported type: float64") :=
  ⟨⟨by decide, by decide,
      export_unsupported_type.1 _ _ tableStore [("name", "QueueName")] [("fifo", "FifoQueue")]
        "ratio" "SamplingRatio" "float64" ratioTable (by decide) (by decide)⟩,
    ⟨by decide, by decide, by decide,
      export_unsupported_type.2.1 _ _ tableStore [("name", "QueueName")]
        [("fifo", "FifoQueue")] "ratio" "SamplingRatio" "float64" ratioTable
        (by decide) (by decide) (by decide)⟩,
    by decide⟩

/-- C5 as stated fails in two ways. In `dormantRatioTable` the mapped field `ratio`
holds a `float64` that is neither present nor changed, and both exports return a
map and no error. In `weightTable` the field `weight` is a present and changed
`float64`, and the error of both exports names `ratio`, visited before it, not
`weight`. -/
theorem export_unsupported_counterexample :
    (("ratio", "SamplingRatio") ∈ ratioMap ∧
      tableStore.Get dormantRatioTable "ratio" = Value.other "float64" ∧
      tableStore.GetOk dormantRatioTable "ratio" = (Value.other "float64", false) ∧
      tableStore.HasChange dormantRatioTable "ratio" = false ∧
      ResourceDataToApiAttributesCreate tableStore ratioMap dormantRatioTable
        = (some ⟨[("FifoQueue", "true"), ("QueueName", "orders")]⟩, none) ∧
      ResourceDataToApiAttributesUpdate tableStore ratioMap dormantRatioTable
        = (some ⟨[("FifoQueue", "true"), ("QueueName", "orders")]⟩, none)) ∧
    (("weight", "Weight") ∈ weightMap ∧
      tableStore.GetOk weightTable "weight" = (Value.other "float64", true) ∧
      tableStore.HasChange weightTable "weight" = true ∧
      tableStore.Get weightTable "weight" = Value.other "float64" ∧
      ResourceDataToApiAttributesCreate tableStore weightMap weightTable
        = (none, some "attribute ratio is of unsupported type: float64") ∧
      ResourceDataToApiAttributesUpdate tableStore weightMap weightTable
        = (none, some "attribute ratio is of unsupported type: float64") ∧
      "attribute ratio is of unsupported type: float64"
        ≠ "attribute weight is of unsupported type: float64") := by
  decide

/-! ## The text of a value -/

theorem digitChar_isDigit (d : Nat) (h : d < 10) : (digitChar d).isDigit = true := by
  interval_cases d <;> decide

theorem digitChar_toNat (d : Nat) (h : d < 10) : (digitChar d).toNat - 48 = d := by
  interval_cases d <;> decide

/-- The digit loop writes, in front of the buffer, a non-empty text of digits whose
number is `u`. -/
theorem formatBits_spec (fuel u : Nat) (a : List Char) (h : u ≤ fuel) :
    ∃ ds, formatBits fuel u a = ds ++ a ∧ ds ≠ [] ∧ (∀ c ∈ ds, c.isDigit = true) ∧
      ds.foldl (fun n c => 10 * n + (c.toNat - 48)) 0 = u := by
  induction fuel generalizing u a with
  | zero =>
    have hu : u = 0 := by omega
    subst hu
    exact ⟨[digitChar 0], rfl, by simp, by simp [digitChar_isDigit], by decide⟩
  | succ k ih =>
    by_cases hlt : u < 10
    · refine ⟨[digitChar u], by simp [formatBits, hlt], by simp, ?_, ?_⟩
      · simp [digitChar_isDigit u hlt]
      · simp [digitChar_toNat u hlt]
    · have hk : u / 10 ≤ k := by omega
      obtain ⟨ds, h1, h2, h3, h4⟩ := ih (u / 10) (digitChar (u % 10) :: a) hk
      have hmod : u % 10 < 10 := Nat.mod_lt _ (by decide)
      refine ⟨ds ++ [digitChar (u % 10)], ?_, by simp, ?_, ?_⟩
      · simp [formatBits, hlt, h1]
      · intro c hc
        rcases List.mem_append.mp hc with hc | hc
        · exact h3 c hc
        · rw [List.mem_singleton] at hc
          rw [hc]
          exact digitChar_isDigit _ hmod
      · rw [List.foldl_append, h4]
        simp only [List.foldl_cons, List.foldl_nil]
        rw [digitChar_toNat _ hmod]
        omega

theorem parseUint_digits (ds : List Char) (h1 : ds ≠ []) (h2 : ∀ c ∈ ds, c.isDigit = true) :
    parseUint ds = some (ds.foldl (fun n c => 10 * n + (c.toNat - 48)) 0) := by
  have hall : ds.all Char.isDigit = true := List.all_eq_true.mpr h2
  simp [parseUint, h1, hall]

theorem Itoa_neg_data (i : Int) (h : i < 0) :
    (Itoa i).data = '-' :: formatBits i.natAbs i.natAbs [] := by
  simp [Itoa, h]

theorem Itoa_nonneg_data (i : Int) (h : 0 ≤ i) :
    (Itoa i).data = formatBits i.natAbs i.natAbs [] := by
  have : ¬ i < 0 := by omega
  simp [Itoa, this]

/-- Reading back the text of an integer gives the integer. -/
theorem Atoi_Itoa (i : Int) : Atoi (Itoa i) = some i := by
  obtain ⟨ds, h1, h2, h3, h4⟩ := formatBits_spec i.natAbs i.natAbs [] (le_refl _)
  rw [List.append_nil] at h1
  by_cases hneg : i < 0
  · unfold Atoi
    rw [Itoa_neg_data i hneg, h1]
    simp only [if_pos, parseUint_digits ds h2 h3, h4, Option.map_some']
    congr 1
    omega
  · have hnn : 0 ≤ i := by omega
    unfold Atoi
    rw [Itoa_nonneg_data i hnn, h1]
    match ds, h2, h3, h4 with
    | c :: cs, _, h3, h4 =>
      have hc : c.isDigit = true := h3 c (List.mem_cons_self _ _)
      have hm : c ≠ '-' := by
        intro hcm; rw [hcm] at hc; exact absurd hc (by decide)
      have hp : c ≠ '+' := by
        intro hcp; rw [hcp] at hc; exact absurd hc (by decide)
      simp only [if_neg hm, if_neg hp, parseUint_digits (c :: cs) (by simp) h3, h4,
        Option.map_some']
      congr 1
      omega

/-- C6. The type switch of both exports gives an `int` the text of `strconv.Itoa`;
that text is, for a negative integer, `-` followed by decimal digits, and for any
other integer decimal digits only, at least one digit in both cases and never a
`+`; reading the text back as a decimal integer gives the integer, so different
integers have different texts. It gives `true` the text `true` and `false` the text
`false`, and every string, the empty one included, itself. -/
theorem coercion_texts :
    (∀ i : Int, apiAttributeValue (Value.int i) = some (Itoa i)) ∧
    (∀ i : Int, i < 0 →
      ∃ ds, (Itoa i).data = '-' :: ds ∧ ds ≠ [] ∧ ∀ c ∈ ds, c.isDigit = true) ∧
    (∀ i : Int, 0 ≤ i → (Itoa i).data ≠ [] ∧ ∀ c ∈ (Itoa i).data, c.isDigit = true) ∧
    (∀ i : Int, '+' ∉ (Itoa i).data) ∧
    (∀ i : Int, Atoi (Itoa i) = some i) ∧
    (∀ i j : Int, Itoa i = Itoa j → i = j) ∧
    (Itoa 0 = "0" ∧ Itoa 45 = "45" ∧ Itoa (-120) = "-120") ∧
    apiAttributeValue (Value.bool true) = some "true" ∧
    apiAttributeValue (Value.bool false) = some "false" ∧
    (∀ v : String, apiAttributeValue (Value.string v) = some v) ∧
    apiAttributeValue (Value.string "") = some "" := by
  have hneg : ∀ i : Int, i < 0 →
      ∃ ds, (Itoa i).data = '-' :: ds ∧ ds ≠ [] ∧ ∀ c ∈ ds, c.isDigit = true := by
    intro i hi
    obtain ⟨ds, h1, h2, h3, _⟩ := formatBits_spec i.natAbs i.natAbs [] (le_refl _)
    rw [List.append_nil] at h1
    exact ⟨ds, by rw [Itoa_neg_data i hi, h1], h2, h3⟩
  have hpos : ∀ i : Int, 0 ≤ i →
      (Itoa i).data ≠ [] ∧ ∀ c ∈ (Itoa i).data, c.isDigit = true := by
    intro i hi
    obtain ⟨ds, h1, h2, h3, _⟩ := formatBits_spec i.natAbs i.natAbs [] (le_refl _)
    rw [List.append_nil] at h1
    rw [Itoa_nonneg_data i hi, h1]
    exact ⟨h2, h3⟩
  refine ⟨fun _ => rfl, hneg, hpos, ?_, Atoi_Itoa, ?_, ⟨by decide, by decide, by decide⟩,
    rfl, rfl, fun _ => rfl, rfl⟩
  · intro i hmem
    have hplus : ¬ ('+' : Char).isDigit = true := by decide
    by_cases hi : i < 0
    · obtain ⟨ds, h1, _, h3⟩ := hneg i hi
      rw [h1] at hmem
      rcases List.mem_cons.mp hmem with h | h
      · exact absurd h (by decide)
      · exact hplus (h3 _ h)
    · exact hplus ((hpos i (by omega)).2 _ hmem)
  · intro i j hij
    have := Atoi_Itoa i
    rw [hij, Atoi_Itoa j] at this
    exact (Option.some.inj this).symm

/-! ## Presence, order of visit, unknown keys, absence -/

/-- The typed store never reports a `false` boolean present. -/
theorem queueStore_never_present_false (st : QueueState) (l : String) :
    queueStore.GetOk st l ≠ (Value.bool false, true) := by
  intro h
  simp only [queueStore] at h
  split_ifs at h
  · simp at h
  · simp at h
  · rw [Prod.mk.injEq, Value.bool.injEq] at h
    obtain ⟨h1, h2⟩ := h
    rw [h1] at h2
    exact absurd h2 (by decide)
  · simp at h

/-- The table store never reports a `false` boolean present. -/
theorem tableStore_never_present_false (t : Table) (l : String) :
    tableStore.GetOk t l ≠ (Value.bool false, true) := by
  intro h
  simp only [tableStore] at h
  cases hl : t.lookup l with
  | none => rw [hl] at h; simp at h
  | some f =>
    rw [hl] at h
    simp only [Prod.mk.injEq] at h
    obtain ⟨h1, h2⟩ := h
    simp [Field.present, h1] at h2

/-- C7, as amended. A boolean field that holds `false` holds the zero value of its
type, which `GetOk` does not report present, so
`ResourceDataToApiAttributesCreate` omits it as it omits an unset field: an API
name whose fields are all not reported present is not a key, and for the queue
map, visited in any order, and any store in which `GetOk` reports `name` present as
`orders` and reports neither the unset `delay` nor `fifo`, which holds `false`,
create returns the map with exactly the one entry `QueueName` to `orders`. The
stores written after section 6 of the spec never report a `false` boolean present,
and the typed store holding `orders`, no delay and `false` answers as said. -/
theorem create_omits_false :
    (∀ (σ ε : Type) (d : ResourceData σ ε) (m : AttributeMap) (s : σ) (out : GoMap)
        (k : String),
      ResourceDataToApiAttributesCreate d m s = (some out, none) →
      (∀ e ∈ m, e.2 = k → (d.GetOk s e.1).2 = false) →
      out.index k = none) ∧
    (∀ (σ ε : Type) (d : ResourceData σ ε) (s : σ) (m : AttributeMap),
      m.Perm queueMap →
      d.GetOk s "name" = (Value.string "orders", true) →
      (d.GetOk s "delay").2 = false →
      d.GetOk s "fifo" = (Value.bool false, false) →
      ResourceDataToApiAttributesCreate d m s
        = (some ⟨[("QueueName", "orders")]⟩, none)) ∧
    (∀ (st : QueueState) (l : String), queueStore.GetOk st l ≠ (Value.bool false, true)) ∧
    (∀ (t : Table) (l : String), tableStore.GetOk t l ≠ (Value.bool false, true)) ∧
    (queueStore.GetOk ordersQueue "name" = (Value.string "orders", true) ∧
      (queueStore.GetOk ordersQueue "delay").2 = false ∧
      queueStore.GetOk ordersQueue "fifo" = (Value.bool false, false)) := by
  refine ⟨?_, ?_, queueStore_never_present_false, tableStore_never_present_false,
    ⟨by decide, by decide, by decide⟩⟩
  · intro σ ε d m s out k hres hk
    rw [ResourceDataToApiAttributesCreate, createLoop_eq_exportLoop] at hres
    rw [exportLoop_index_frame (presentValue d s) m GoMap.empty out k hres
      (fun e he hek => (presentValue_eq_none d s e.1).mpr (hk e he hek))]
    rfl
  · intro σ ε d s m hp hname hdelay hfifo
    have hnd : (m.map Prod.snd).Nodup := (hp.map Prod.snd).nodup_iff.mpr (by decide)
    have hcases : ∀ e ∈ m, e = ("name", "QueueName") ∨ e = ("delay", "DelaySeconds") ∨
        e = ("fifo", "FifoQueue") := by
      intro e he
      have hq : e ∈ queueMap := hp.mem_iff.mp he
      simpa [queueMap] using hq
    have hsup : ∀ e ∈ m, (d.GetOk s e.1).2 = true →
        apiAttributeValue (d.GetOk s e.1).1 ≠ none := by
      intro e he hok
      rcases hcases e he with rfl | rfl | rfl
      · simp [hname, apiAttributeValue]
      · rw [hdelay] at hok; exact absurd hok (by decide)
      · rw [hfifo] at hok; exact absurd hok (by decide)
    obtain ⟨out, hout, h1, _, _, _, h5⟩ := create_exact d m s hnd hsup
    have hlen : out.len = 1 := by
      rw [h5, (hp.filter _).length_eq]
      simp [queueMap, List.filter, hname, hdelay, hfifo]
    have hidx : out.index "QueueName" = some "orders" := by
      have := h1 ("name", "QueueName") (hp.mem_iff.mpr (by decide)) (by simp [hname])
      rw [this, hname]; rfl
    rw [hout, GoMap.eq_single out "QueueName" "orders" hlen hidx]

/-- The theorem of C7 at the typed store and at the table store, both holding
`orders`, no delay and `false`, visited in the order written. -/
theorem create_omits_false_witness :
    (queueMap.Perm queueMap ∧
      queueStore.GetOk ordersQueue "name" = (Value.string "orders", true) ∧
      (queueStore.GetOk ordersQueue "delay").2 = false ∧
      queueStore.GetOk ordersQueue "fifo" = (Value.bool false, false) ∧
      ResourceDataToApiAttributesCreate queueStore queueMap ordersQueue
        = (some ⟨[("QueueName", "orders")]⟩, none)) ∧
    (tableStore.GetOk ordersTable "name" = (Value.string "orders", true) ∧
      (tableStore.GetOk ordersTable "delay").2 = false ∧
      tableStore.GetOk ordersTable "fifo" = (Value.bool false, false) ∧
      ResourceDataToApiAttributesCreate tableStore queueMap ordersTable
        = (some ⟨[("QueueName", "orders")]⟩, none)) :=
  ⟨⟨List.Perm.refl _, by decide, by decide, by decide,
      create_omits_false.2.1 _ _ queueStore ordersQueue queueMap (List.Perm.refl _)
        (by decide) (by decide) (by decide)⟩,
    ⟨by decide, by decide, by decide,
      create_omits_false.2.1 _ _ tableStore ordersTable queueMap (List.Perm.refl _)
        (by decide) (by decide) (by decide)⟩⟩

/-- C7 as stated fails on a store that answers as section 6 of the spec says. The
typed store holds `orders` for `name`, nothing for `delay` and `false` for `fifo`;
`GetOk` does not report `fifo` present, in no state does it report a `false`
boolean present, and create returns the single entry `QueueName` to `orders`:
`FifoQueue` is not a key, where the claim has it with the value `false`. -/
theorem create_present_false_counterexample :
    queueStore.Get ordersQueue "name" = Value.string "orders" ∧
    queueStore.Get ordersQueue "delay" = Value.int 0 ∧
    queueStore.Get ordersQueue "fifo" = Value.bool false ∧
    queueStore.GetOk ordersQueue "fifo" = (Value.bool false, false) ∧
    (∀ (st : QueueState) (l : String), queueStore.GetOk st l ≠ (Value.bool false, true)) ∧
    ResourceDataToApiAttributesCreate queueStore queueMap ordersQueue
      = (some ⟨[("QueueName", "orders")]⟩, none) ∧
    GoMap.index ⟨[("QueueName", "orders")]⟩ "FifoQueue" = none ∧
    (⟨[("QueueName", "orders")]⟩ : GoMap).len ≠ 2 :=
  ⟨by decide, by decide, by decide, by decide, queueStore_never_present_false, by decide,
    by decide, by decide⟩

/-- C8, as amended. For every attribute map whose API names are pairwise distinct,
two calls of `ResourceDataToApiAttributesCreate` on the same store state, each
visiting the map in an order of its own, both return an error and no map, or both
return a map and no error, and the two maps have the same value under every key,
the same entries and the same length. Create takes the store state and calls only
`GetOk` on it, so the second call finds the state the first one found. -/
theorem create_twice_same_result {σ ε : Type} (d : ResourceData σ ε)
    (m m' : AttributeMap) (s : σ) (hnd : (m.map Prod.snd).Nodup) (hp : m.Perm m') :
    (∃ out out', ResourceDataToApiAttributesCreate d m s = (some out, none) ∧
        ResourceDataToApiAttributesCreate d m' s = (some out', none) ∧
        (∀ k, out.index k = out'.index k) ∧ out.entries.Perm out'.entries ∧
        out.len = out'.len) ∨
      (∃ msg msg', ResourceDataToApiAttributesCreate d m s = (none, some msg) ∧
        ResourceDataToApiAttributesCreate d m' s = (none, some msg')) := by
  unfold ResourceDataToApiAttributesCreate
  rw [createLoop_eq_exportLoop, createLoop_eq_exportLoop]
  exact exportLoop_perm (presentValue d s) m m' hnd hp

/-- The theorem of C8 at the queue store, visited forwards and backwards. -/
theorem create_twice_same_result_witness :
    (queueMap.map Prod.snd).Nodup ∧ queueMap.Perm queueMap.reverse ∧
    ((∃ out out', ResourceDataToApiAttributesCreate tableStore queueMap ordersTable
          = (some out, none) ∧
        ResourceDataToApiAttributesCreate tableStore queueMap.reverse ordersTable
          = (some out', none) ∧
        (∀ k, out.index k = out'.index k) ∧ out.entries.Perm out'.entries ∧
        out.len = out'.len) ∨
      (∃ msg msg', ResourceDataToApiAttributesCreate tableStore queueMap ordersTable
          = (none, some msg) ∧
        ResourceDataToApiAttributesCreate tableStore queueMap.reverse ordersTable
          = (none, some msg'))) :=
  ⟨by decide, (List.reverse_perm queueMap).symm,
    create_twice_same_result tableStore queueMap queueMap.reverse ordersTable (by decide)
      (List.reverse_perm queueMap).symm⟩

/-- C8 as stated fails when two fields share an API name: `collidingMap` visited in
its two orders on the same store state gives two different maps. -/
theorem create_twice_collision_counterexample :
    collidingMap.Perm collidingMap.reverse ∧
    ResourceDataToApiAttributesCreate tableStore collidingMap collidingTable
      = (some ⟨[("Name", "2")]⟩, none) ∧
    ResourceDataToApiAttributesCreate tableStore collidingMap.reverse collidingTable
      = (some ⟨[("Name", "1")]⟩, none) ∧
    GoMap.index ⟨[("Name", "2")]⟩ "Name" ≠ GoMap.index ⟨[("Name", "1")]⟩ "Name" :=
  ⟨(List.reverse_perm collidingMap).symm, by decide, by decide, by decide⟩

/-- C9. If two maps of API attributes have the same value, or both none, under every
API name of the attribute map, `ApiAttributesToResourceData` makes the same set
calls and returns the same store state and the same error or none for both. Every
set call is for an entry of the attribute map with the value under its API name,
and every error names the field of such an entry: a key that is no API name of the
attribute map causes no set and no error. -/
theorem import_ignores_unmapped_keys {σ ε : Type} (d : ResourceData σ ε)
    (m : AttributeMap) (apiAttributes apiAttributes' : GoMap) (s : σ)
    (h : ∀ e ∈ m, apiAttributes.index e.2 = apiAttributes'.index e.2) :
    ApiAttributesToResourceData d m apiAttributes s
      = ApiAttributesToResourceData d m apiAttributes' s ∧
    importCalls d m apiAttributes s = importCalls d m apiAttributes' s ∧
    (∀ c ∈ importCalls d m apiAttributes s,
      ∃ e ∈ m, e.1 = c.tfAttributeName ∧ apiAttributes.index e.2 = some c.value) ∧
    (∀ w, (ApiAttributesToResourceData d m apiAttributes s).2 = some w →
      ∃ e ∈ m, ∃ v, apiAttributes.index e.2 = some v ∧
        w.text = "error setting " ++ e.1 ++ ": " ++ d.ErrorText w.unwrap) := by
  refine ⟨import_congr d m apiAttributes apiAttributes' s h, ?_,
    importCalls_mem d m apiAttributes s, ?_⟩
  · unfold importCalls
    rw [import_congr d.journaled m apiAttributes apiAttributes' (s, []) h]
  · intro w hw
    obtain ⟨pre, post, l, r, v, hm, _, hr, _, ht⟩ :=
      import_error_decompose d m apiAttributes s w hw
    exact ⟨(l, r), by rw [hm]; simp, v, hr, ht⟩

/-- The theorem of C9 at the queue map: a response with an unknown key and the same
response without it. -/
theorem import_ignores_unmapped_keys_witness :
    (∀ e ∈ queueMap, sparseAttributes.index e.2
        = GoMap.index ⟨[("DelaySeconds", "30")]⟩ e.2) ∧
    ApiAttributesToResourceData tableStore queueMap sparseAttributes ordersTable
      = ApiAttributesToResourceData tableStore queueMap ⟨[("DelaySeconds", "30")]⟩
          ordersTable ∧
    importCalls tableStore queueMap sparseAttributes ordersTable
      = importCalls tableStore queueMap ⟨[("DelaySeconds", "30")]⟩ ordersTable :=
  ⟨by decide,
    (import_ignores_unmapped_keys tableStore queueMap sparseAttributes
      ⟨[("DelaySeconds", "30")]⟩ ordersTable (by decide)).1,
    (import_ignores_unmapped_keys tableStore queueMap sparseAttributes
      ⟨[("DelaySeconds", "30")]⟩ ordersTable (by decide)).2.1⟩

/-- Import with no API name of the attribute map among the API attributes does
nothing. -/
theorem import_absent {σ ε : Type} (d : ResourceData σ ε) (m : AttributeMap) (R : GoMap)
    (s : σ) (h : ∀ e ∈ m, R.index e.2 = none) :
    ApiAttributesToResourceData d m R s = (s, none) := by
  induction m with
  | nil => rfl
  | cons e t ih =>
    obtain ⟨l, r⟩ := e
    rw [import_cons_absent d l r t R s (h (l, r) (List.mem_cons_self _ _))]
    exact ih (fun e he => h e (List.mem_cons_of_mem _ he))

/-- C10. `ApiAttributesToResourceData` with API attributes that hold no API name of
the attribute map (the empty ones among them) returns no error, makes no set call
and leaves the store as it was. `ResourceDataToApiAttributesCreate` on a store in
which no mapped field is present, and `ResourceDataToApiAttributesUpdate` on a
store in which no mapped field has changed, return the empty map, not nil, and no
error. All three do so for the empty attribute map. -/
theorem absence_is_no_error :
    (∀ (σ ε : Type) (d : ResourceData σ ε) (m : AttributeMap) (apiAttributes : GoMap)
        (s : σ),
      (∀ e ∈ m, apiAttributes.index e.2 = none) →
      ApiAttributesToResourceData d m apiAttributes s = (s, none) ∧
        importCalls d m apiAttributes s = []) ∧
    (∀ (σ ε : Type) (d : ResourceData σ ε) (m : AttributeMap) (s : σ),
      ApiAttributesToResourceData d m GoMap.empty s = (s, none) ∧
        importCalls d m GoMap.empty s = []) ∧
    (∀ (σ ε : Type) (d : ResourceData σ ε) (m : AttributeMap) (s : σ),
      (∀ e ∈ m, (d.GetOk s e.1).2 = false) →
      ResourceDataToApiAttributesCreate d m s = (some GoMap.empty, none)) ∧
    (∀ (σ ε : Type) (d : ResourceData σ ε) (m : AttributeMap) (s : σ),
      (∀ e ∈ m, d.HasChange s e.1 = false) →
      ResourceDataToApiAttributesUpdate d m s = (some GoMap.empty, none)) ∧
    (∀ (σ ε : Type) (d : ResourceData σ ε) (apiAttributes : GoMap) (s : σ),
      ApiAttributesToResourceData d [] apiAttributes s = (s, none) ∧
        importCalls d [] apiAttributes s = [] ∧
        ResourceDataToApiAttributesCreate d [] s = (some GoMap.empty, none) ∧
        ResourceDataToApiAttributesUpdate d [] s = (some GoMap.empty, none)) ∧
    GoMap.empty.len = 0 := by
  have himp : ∀ (σ ε : Type) (d : ResourceData σ ε) (m : AttributeMap) (R : GoMap) (s : σ),
      (∀ e ∈ m, R.index e.2 = none) →
      ApiAttributesToResourceData d m R s = (s, none) ∧ importCalls d m R s = [] := by
    intro σ ε d m R s h
    refine ⟨import_absent d m R s h, ?_⟩
    unfold importCalls
    rw [import_absent d.journaled m R (s, []) h]
  refine ⟨himp, ?_, ?_, ?_, ?_, rfl⟩
  · intro σ ε d m s
    exact himp σ ε d m GoMap.empty s (fun e _ => GoMap.index_empty e.2)
  · intro σ ε d m s h
    rw [ResourceDataToApiAttributesCreate, createLoop_eq_exportLoop]
    exact exportLoop_skip_all _ m _ (fun e he => (presentValue_eq_none d s e.1).mpr (h e he))
  · intro σ ε d m s h
    rw [ResourceDataToApiAttributesUpdate, updateLoop_eq_exportLoop]
    exact exportLoop_skip_all _ m _ (fun e he => (changedValue_eq_none d s e.1).mpr (h e he))
  · intro σ ε d R s
    exact ⟨rfl, rfl, rfl, rfl⟩

/-- The theorem of C10 at the queue map: a response with none of its API names, and
a store with nothing configured and nothing changed. -/
theorem absence_is_no_error_witness :
    ((∀ e ∈ queueMap, foreignAttributes.index e.2 = none) ∧
      ApiAttributesToResourceData tableStore queueMap foreignAttributes ordersTable
        = (ordersTable, none) ∧
      importCalls tableStore queueMap foreignAttributes ordersTable = []) ∧
    ((∀ e ∈ queueMap, (tableStore.GetOk unsetTable e.1).2 = false) ∧
      ResourceDataToApiAttributesCreate tableStore queueMap unsetTable
        = (some GoMap.empty, none)) ∧
    ((∀ e ∈ queueMap, tableStore.HasChange unsetTable e.1 = false) ∧
      ResourceDataToApiAttributesUpdate tableStore queueMap unsetTable
        = (some GoMap.empty, none)) :=
  ⟨⟨by decide, absence_is_no_error.1 _ _ tableStore queueMap foreignAttributes ordersTable
      (by decide)⟩,
    ⟨by decide, absence_is_no_error.2.2.1 _ _ tableStore queueMap unsetTable (by decide)⟩,
    ⟨by decide, absence_is_no_error.2.2.2.1 _ _ tableStore queueMap unsetTable (by decide)⟩⟩

/-! ## The queue example on a coercing store -/

/-- Import returns no error when every set it can make succeeds. -/
theorem import_ok_of_sets_ok {σ ε : Type} (d : ResourceData σ ε) (m : AttributeMap)
    (R : GoMap) (s : σ)
    (h : ∀ e ∈ m, ∀ v, R.index e.2 = some v → ∀ st, (d.Set st e.1 v).2 = none) :
    (ApiAttributesToResourceData d m R s).2 = none := by
  induction m generalizing s with
  | nil => rfl
  | cons e t ih =>
    obtain ⟨l, r⟩ := e
    have ht : ∀ e ∈ t, ∀ v, R.index e.2 = some v → ∀ st, (d.Set st e.1 v).2 = none :=
      fun e he => h e (List.mem_cons_of_mem _ he)
    cases hr : R.index r with
    | none => rw [import_cons_absent d l r t R s hr]; exact ih s ht
    | some v =>
      have hs := h (l, r) (List.mem_cons_self _ _) v hr s
      rw [import_cons_set d l r v t R s hr hs]
      exact ih _ ht

theorem applyCalls_cons {σ ε : Type} (d : ResourceData σ ε) (s : σ) (c : SetCall)
    (calls : List SetCall) :
    applyCalls d s (c :: calls)
      = applyCalls d (d.Set s c.tfAttributeName c.value).1 calls := rfl

/-- Calls on other fields leave what `Get` returns for a field, when each single
set does. -/
theorem applyCalls_frame {σ ε : Type} (d : ResourceData σ ε)
    (hframe : ∀ st f g v, f ≠ g → d.Get (d.Set st f v).1 g = d.Get st g)
    (s : σ) (calls : List SetCall) (g : String)
    (hg : g ∉ calls.map SetCall.tfAttributeName) :
    d.Get (applyCalls d s calls) g = d.Get s g := by
  induction calls generalizing s with
  | nil => rfl
  | cons c t ih =>
    rw [List.map_cons, List.mem_cons, not_or] at hg
    rw [applyCalls_cons, ih _ hg.2]
    exact hframe s c.tfAttributeName g c.value (fun h => hg.1 h.symm)

/-- After calls on pairwise distinct fields, `Get` returns for the field of a call
what it returns right after that call. -/
theorem applyCalls_get {σ ε : Type} (d : ResourceData σ ε)
    (hframe : ∀ st f g v, f ≠ g → d.Get (d.Set st f v).1 g = d.Get st g)
    (s : σ) (calls : List SetCall) (c : SetCall) (x : Value)
    (hnd : (calls.map SetCall.tfAttributeName).Nodup) (hc : c ∈ calls)
    (hx : ∀ st, d.Get (d.Set st c.tfAttributeName c.value).1 c.tfAttributeName = x) :
    d.Get (applyCalls d s calls) c.tfAttributeName = x := by
  induction calls generalizing s with
  | nil => simp at hc
  | cons c0 t ih =>
    rw [List.map_cons, List.nodup_cons] at hnd
    rw [applyCalls_cons]
    rcases List.mem_cons.mp hc with rfl | hct
    · rw [applyCalls_frame d hframe _ t c.tfAttributeName hnd.1]
      exact hx s
    · exact ih _ hnd.2 hct

/-- C11. For the queue map visited in any order, the API attributes `QueueName` =
`orders`, `DelaySeconds` = `30`, `FifoQueue` = `true`, and every store whose `Set`
takes these three strings for `name`, `delay` and `fifo` without error and makes
`Get` return the string `orders`, the integer `30` and the boolean `true` for them,
a set on one field not changing the others: `ApiAttributesToResourceData` returns no
error, its set calls are exactly the three calls with the strings `orders`, `30`
and `true` as they stand in the API attributes, and afterwards `Get` returns the
string `orders` for `name`, the integer `30` for `delay` and the boolean `true` for
`fifo`. -/
theorem import_queue_example {σ ε : Type} (d : ResourceData σ ε) (s : σ)
    (m : AttributeMap) (hp : m.Perm queueMap)
    (hname : ∀ st, (d.Set st "name" "orders").2 = none ∧
      d.Get (d.Set st "name" "orders").1 "name" = Value.string "orders")
    (hdelay : ∀ st, (d.Set st "delay" "30").2 = none ∧
      d.Get (d.Set st "delay" "30").1 "delay" = Value.int 30)
    (hfifo : ∀ st, (d.Set st "fifo" "true").2 = none ∧
      d.Get (d.Set st "fifo" "true").1 "fifo" = Value.bool true)
    (hframe : ∀ st f g v, f ≠ g → d.Get (d.Set st f v).1 g = d.Get st g) :
    (ApiAttributesToResourceData d m queueAttributes s).2 = none ∧
    importCalls d m queueAttributes s
      = m.filterMap (fun e => (queueAttributes.index e.2).map (fun v => ⟨e.1, v, false⟩)) ∧
    (importCalls d m queueAttributes s).Perm
      [⟨"name", "orders", false⟩, ⟨"delay", "30", false⟩, ⟨"fifo", "true", false⟩] ∧
    d.Get (ApiAttributesToResourceData d m queueAttributes s).1 "name"
      = Value.string "orders" ∧
    d.Get (ApiAttributesToResourceData d m queueAttributes s).1 "delay" = Value.int 30 ∧
    d.Get (ApiAttributesToResourceData d m queueAttributes s).1 "fifo"
      = Value.bool true := by
  have hok : ∀ e ∈ m, ∀ v, queueAttributes.index e.2 = some v →
      ∀ st, (d.Set st e.1 v).2 = none := by
    intro e he v hv st
    have hq : e ∈ queueMap := hp.mem_iff.mp he
    simp only [queueMap, List.mem_cons, List.mem_singleton, List.not_mem_nil, or_false] at hq
    rcases hq with rfl | rfl | rfl
    · have : v = "orders" := by
        have h0 : queueAttributes.index "QueueName" = some "orders" := by decide
        rw [h0] at hv; exact (Option.some.inj hv).symm
      rw [this]; exact (hname st).1
    · have : v = "30" := by
        have h0 : queueAttributes.index "DelaySeconds" = some "30" := by decide
        rw [h0] at hv; exact (Option.some.inj hv).symm
      rw [this]; exact (hdelay st).1
    · have : v = "true" := by
        have h0 : queueAttributes.index "FifoQueue" = some "true" := by decide
        rw [h0] at hv; exact (Option.some.inj hv).symm
      rw [this]; exact (hfifo st).1
  have hnone := import_ok_of_sets_ok d m queueAttributes s hok
  obtain ⟨hcalls, hstate⟩ := import_ok_calls d m queueAttributes s hnone
  have hperm : (expectedCalls m queueAttributes).Perm
      [⟨"name", "orders", false⟩, ⟨"delay", "30", false⟩, ⟨"fifo", "true", false⟩] := by
    have h1 : (expectedCalls m queueAttributes).Perm (expectedCalls queueMap queueAttributes) :=
      hp.filterMap _
    have h2 : expectedCalls queueMap queueAttributes
        = [⟨"name", "orders", false⟩, ⟨"delay", "30", false⟩, ⟨"fifo", "true", false⟩] := by
      decide
    rw [h2] at h1
    exact h1
  have hnd : ((expectedCalls m queueAttributes).map SetCall.tfAttributeName).Nodup :=
    (hperm.map SetCall.tfAttributeName).nodup_iff.mpr (by decide)
  refine ⟨hnone, hcalls, by rw [hcalls]; exact hperm, ?_, ?_, ?_⟩
  · rw [hstate]
    exact applyCalls_get d hframe s _ ⟨"name", "orders", false⟩ _ hnd
      (hperm.mem_iff.mpr (by decide)) (fun st => (hname st).2)
  · rw [hstate]
    exact applyCalls_get d hframe s _ ⟨"delay", "30", false⟩ _ hnd
      (hperm.mem_iff.mpr (by decide)) (fun st => (hdelay st).2)
  · rw [hstate]
    exact applyCalls_get d hframe s _ ⟨"fifo", "true", false⟩ _ hnd
      (hperm.mem_iff.mpr (by decide)) (fun st => (hfifo st).2)

/-- A set of the typed store on one field leaves the others. -/
theorem queueStore_frame (st : QueueState) (f g v : String) (h : f ≠ g) :
    queueStore.Get (queueStore.Set st f v).1 g = queueStore.Get st g := by
  simp only [queueStore]
  by_cases h1 : f = "name"
  · subst h1
    have hg : g ≠ "name" := fun hg => h hg.symm
    simp [hg]
  · by_cases h2 : f = "delay"
    · subst h2
      have hg : g ≠ "delay" := fun hg => h hg.symm
      cases ha : Atoi v <;> simp [ha, hg]
    · by_cases h3 : f = "fifo"
      · subst h3
        have hg : g ≠ "fifo" := fun hg => h hg.symm
        cases hb : ParseBool v <;> simp [hb, hg]
      · simp [h1, h2, h3]

/-- The theorem of C11 at the typed store, visited in the order written: the store
ends with the string `orders`, the integer `30` and the boolean `true`. -/
theorem import_queue_example_witness :
    (queueMap.Perm queueMap ∧
      (∀ st, (queueStore.Set st "name" "orders").2 = none ∧
        queueStore.Get (queueStore.Set st "name" "orders").1 "name" = Value.string "orders") ∧
      (∀ st, (queueStore.Set st "delay" "30").2 = none ∧
        queueStore.Get (queueStore.Set st "delay" "30").1 "delay" = Value.int 30) ∧
      (∀ st, (queueStore.Set st "fifo" "true").2 = none ∧
        queueStore.Get (queueStore.Set st "fifo" "true").1 "fifo" = Value.bool true) ∧
      (∀ st f g v, f ≠ g →
        queueStore.Get (queueStore.Set st f v).1 g = queueStore.Get st g)) ∧
    ((ApiAttributesToResourceData queueStore queueMap queueAttributes blankQueue).2 = none ∧
      queueStore.Get
          (ApiAttributesToResourceData queueStore queueMap queueAttributes blankQueue).1 "name"
        = Value.string "orders" ∧
      queueStore.Get
          (ApiAttributesToResourceData queueStore queueMap queueAttributes blankQueue).1 "delay"
        = Value.int 30 ∧
      queueStore.Get
          (ApiAttributesToResourceData queueStore queueMap queueAttributes blankQueue).1 "fifo"
        = Value.bool true) ∧
    ApiAttributesToResourceData queueStore queueMap queueAttributes blankQueue
      = (⟨⟨"orders", 30, true⟩, ⟨"", 0, false⟩⟩, none) ∧
    importCalls queueStore queueMap queueAttributes blankQueue
      = [⟨"name", "orders", false⟩, ⟨"delay", "30", false⟩, ⟨"fifo", "true", false⟩] := by
  have h1 : ∀ st, (queueStore.Set st "name" "orders").2 = none ∧
      queueStore.Get (queueStore.Set st "name" "orders").1 "name" = Value.string "orders" :=
    fun st => ⟨rfl, rfl⟩
  have h2 : ∀ st, (queueStore.Set st "delay" "30").2 = none ∧
      queueStore.Get (queueStore.Set st "delay" "30").1 "delay" = Value.int 30 := by
    intro st
    have ha : Atoi "30" = some 30 := by decide
    simp [queueStore, ha]
  have h3 : ∀ st, (queueStore.Set st "fifo" "true").2 = none ∧
      queueStore.Get (queueStore.Set st "fifo" "true").1 "fifo" = Value.bool true := by
    intro st
    have hb : ParseBool "true" = some true := by decide
    simp [queueStore, hb]
  have h := import_queue_example queueStore blankQueue queueMap (List.Perm.refl _) h1 h2 h3
    queueStore_frame
  exact ⟨⟨List.Perm.refl _, h1, h2, h3, queueStore_frame⟩, ⟨h.1, h.2.2.2.1, h.2.2.2.2.1,
    h.2.2.2.2.2⟩, by decide, by decide⟩

/-! ## What the exports read -/

/-- The loop depends on the reading only at the fields of the attribute map. -/
theorem exportLoop_congr (read read' : String → Option Value) (m : AttributeMap)
    (acc : GoMap) (h : ∀ e ∈ m, read e.1 = read' e.1) :
    exportLoop read m acc = exportLoop read' m acc := by
  induction m generalizing acc with
  | nil => rfl
  | cons e t ih =>
    obtain ⟨l, r⟩ := e
    have ht : ∀ e ∈ t, read e.1 = read' e.1 := fun e he => h e (List.mem_cons_of_mem _ he)
    have hl : read l = read' l := h (l, r) (List.mem_cons_self _ _)
    cases hr : read l with
    | none =>
      rw [exportLoop_cons_skip read l r t acc hr,
        exportLoop_cons_skip read' l r t acc (hl ▸ hr)]
      exact ih acc ht
    | some v =>
      cases hx : apiAttributeValue v with
      | none =>
        rw [exportLoop_cons_fail read l r t acc v hr hx,
          exportLoop_cons_fail read' l r t acc v (hl ▸ hr) hx]
      | some x =>
        rw [exportLoop_cons_assign read l r t acc v x hr hx,
          exportLoop_cons_assign read' l r t acc v x (hl ▸ hr) hx]
        exact ih _ ht

/-- The loop fails exactly when it meets an exported field of unsupported type. -/
theorem exportLoop_error_iff (read : String → Option Value) (m : AttributeMap)
    (acc : GoMap) :
    (exportLoop read m acc).2 ≠ none ↔
      ∃ e ∈ m, ∃ v, read e.1 = some v ∧ apiAttributeValue v = none := by
  constructor
  · intro h
    rcases exportLoop_shape read m acc with ⟨out, hout⟩ | ⟨msg, hmsg⟩
    · rw [hout] at h; exact absurd rfl h
    · obtain ⟨e, he, v, hv, hx, _⟩ := exportLoop_error_mem read m acc msg hmsg
      exact ⟨e, he, v, hv, hx⟩
  · intro h
    obtain ⟨e, _, v, _, _, hres⟩ := exportLoop_fails read m acc h
    rw [hres]
    simp

/-- The text of a value of supported type is the one of the conversion table. -/
theorem apiAttributeValue_eq_some (v : Value) (x : String) (h : apiAttributeValue v = some x) :
    (∃ i, v = Value.int i ∧ x = Itoa i) ∨ (∃ b, v = Value.bool b ∧ x = FormatBool b) ∨
      v = Value.string x := by
  cases v with
  | int i => exact Or.inl ⟨i, rfl, (Option.some.inj h).symm⟩
  | bool b => exact Or.inr (Or.inl ⟨b, rfl, (Option.some.inj h).symm⟩)
  | string w => exact Or.inr (Or.inr (by rw [← Option.some.inj h]))
  | other t => simp [apiAttributeValue] at h

/-- C12. `ResourceDataToApiAttributesCreate` returns an error exactly when some
mapped field that `GetOk` reports present holds a value that is no `int`, `bool` or
`string`, and `ResourceDataToApiAttributesUpdate` exactly when some mapped field
that has changed holds such a value under `Get`. The type switch gives a text to
every `int`, `bool` and `string` and to no other value. The result of create is
the same for two stores that agree on which mapped fields are present and on the
values of the present ones, whatever the fields that are not present hold, and
likewise for update with the changed fields: such a field is not read and causes no
error. Every entry of a returned map is the text of an `int`, a `bool` or a
`string` from the conversion table. -/
theorem export_fails_iff_unsupported :
    (∀ (σ ε : Type) (d : ResourceData σ ε) (m : AttributeMap) (s : σ),
      (ResourceDataToApiAttributesCreate d m s).2 ≠ none ↔
        ∃ e ∈ m, (d.GetOk s e.1).2 = true ∧
          ∃ goType, (d.GetOk s e.1).1 = Value.other goType) ∧
    (∀ (σ ε : Type) (d : ResourceData σ ε) (m : AttributeMap) (s : σ),
      (ResourceDataToApiAttributesUpdate d m s).2 ≠ none ↔
        ∃ e ∈ m, d.HasChange s e.1 = true ∧ ∃ goType, d.Get s e.1 = Value.other goType) ∧
    ((∀ v : Value, apiAttributeValue v = none ↔ ∃ goType, v = Value.other goType) ∧
      (∀ i, apiAttributeValue (Value.int i) = some (Itoa i)) ∧
      (∀ b, apiAttributeValue (Value.bool b) = some (FormatBool b)) ∧
      (∀ w, apiAttributeValue (Value.string w) = some w)) ∧
    (∀ (σ ε σ' ε' : Type) (d : ResourceData σ ε) (d' : ResourceData σ' ε')
        (m : AttributeMap) (s : σ) (s' : σ'),
      (∀ e ∈ m, (d.GetOk s e.1).2 = (d'.GetOk s' e.1).2 ∧
        ((d.GetOk s e.1).2 = true → (d.GetOk s e.1).1 = (d'.GetOk s' e.1).1)) →
      ResourceDataToApiAttributesCreate d m s = ResourceDataToApiAttributesCreate d' m s') ∧
    (∀ (σ ε σ' ε' : Type) (d : ResourceData σ ε) (d' : ResourceData σ' ε')
        (m : AttributeMap) (s : σ) (s' : σ'),
      (∀ e ∈ m, d.HasChange s e.1 = d'.HasChange s' e.1 ∧
        (d.HasChange s e.1 = true → d.Get s e.1 = d'.Get s' e.1)) →
      ResourceDataToApiAttributesUpdate d m s = ResourceDataToApiAttributesUpdate d' m s') ∧
    (∀ (σ ε : Type) (d : ResourceData σ ε) (m : AttributeMap) (s : σ) (out : GoMap)
        (k x : String),
      ResourceDataToApiAttributesCreate d m s = (some out, none) → out.index k = some x →
      ∃ e ∈ m, e.2 = k ∧ (d.GetOk s e.1).2 = true ∧
        ((∃ i, (d.GetOk s e.1).1 = Value.int i ∧ x = Itoa i) ∨
          (∃ b, (d.GetOk s e.1).1 = Value.bool b ∧ x = FormatBool b) ∨
          (d.GetOk s e.1).1 = Value.string x)) ∧
    (∀ (σ ε : Type) (d : ResourceData σ ε) (m : AttributeMap) (s : σ) (out : GoMap)
        (k x : String),
      ResourceDataToApiAttributesUpdate d m s = (some out, none) → out.index k = some x →
      ∃ e ∈ m, e.2 = k ∧ d.HasChange s e.1 = true ∧
        ((∃ i, d.Get s e.1 = Value.int i ∧ x = Itoa i) ∨
          (∃ b, d.Get s e.1 = Value.bool b ∧ x = FormatBool b) ∨
          d.Get s e.1 = Value.string x)) := by
  refine ⟨?_, ?_, ⟨apiAttributeValue_eq_none, fun _ => rfl, fun _ => rfl, fun _ => rfl⟩,
    ?_, ?_, ?_, ?_⟩
  · intro σ ε d m s
    rw [ResourceDataToApiAttributesCreate, createLoop_eq_exportLoop, exportLoop_error_iff]
    constructor
    · rintro ⟨e, he, v, hv, hx⟩
      obtain ⟨hok, rfl⟩ := (presentValue_eq_some d s e.1 v).mp hv
      exact ⟨e, he, hok, (apiAttributeValue_eq_none _).mp hx⟩
    · rintro ⟨e, he, hok, t, ht⟩
      exact ⟨e, he, _, (presentValue_eq_some d s e.1 _).mpr ⟨hok, rfl⟩,
        (apiAttributeValue_eq_none _).mpr ⟨t, ht⟩⟩
  · intro σ ε d m s
    rw [ResourceDataToApiAttributesUpdate, updateLoop_eq_exportLoop, exportLoop_error_iff]
    constructor
    · rintro ⟨e, he, v, hv, hx⟩
      obtain ⟨hc, rfl⟩ := (changedValue_eq_some d s e.1 v).mp hv
      exact ⟨e, he, hc, (apiAttributeValue_eq_none _).mp hx⟩
    · rintro ⟨e, he, hc, t, ht⟩
      exact ⟨e, he, _, (changedValue_eq_some d s e.1 _).mpr ⟨hc, rfl⟩,
        (apiAttributeValue_eq_none _).mpr ⟨t, ht⟩⟩
  · intro σ ε σ' ε' d d' m s s' h
    rw [ResourceDataToApiAttributesCreate, ResourceDataToApiAttributesCreate,
      createLoop_eq_exportLoop, createLoop_eq_exportLoop]
    apply exportLoop_congr
    intro e he
    obtain ⟨h1, h2⟩ := h e he
    unfold presentValue
    rw [← h1]
    cases hok : (d.GetOk s e.1).2 with
    | true => simp [h2 hok]
    | false => simp
  · intro σ ε σ' ε' d d' m s s' h
    rw [ResourceDataToApiAttributesUpdate, ResourceDataToApiAttributesUpdate,
      updateLoop_eq_exportLoop, updateLoop_eq_exportLoop]
    apply exportLoop_congr
    intro e he
    obtain ⟨h1, h2⟩ := h e he
    unfold changedValue
    rw [← h1]
    cases hc : d.HasChange s e.1 with
    | true => simp [h2 hc]
    | false => simp
  · intro σ ε d m s out k x hres hk
    rw [ResourceDataToApiAttributesCreate, createLoop_eq_exportLoop] at hres
    rcases exportLoop_index_origin (presentValue d s) m GoMap.empty out k x hres hk with
      h0 | ⟨l, v, hm, hl, hx⟩
    · simp [GoMap.index_empty] at h0
    · obtain ⟨hok, rfl⟩ := (presentValue_eq_some d s l v).mp hl
      exact ⟨(l, k), hm, rfl, hok, apiAttributeValue_eq_some _ x hx⟩
  · intro σ ε d m s out k x hres hk
    rw [ResourceDataToApiAttributesUpdate, updateLoop_eq_exportLoop] at hres
    rcases exportLoop_index_origin (changedValue d s) m GoMap.empty out k x hres hk with
      h0 | ⟨l, v, hm, hl, hx⟩
    · simp [GoMap.index_empty] at h0
    · obtain ⟨hc, rfl⟩ := (changedValue_eq_some d s l v).mp hl
      exact ⟨(l, k), hm, rfl, hc, apiAttributeValue_eq_some _ x hx⟩

/-- The theorem of C12 at a store whose `float64` field is neither present nor
changed: create and update return a map, the same as on the store in which that
field is an unset integer. -/
theorem export_fails_iff_unsupported_witness :
    ((∀ e ∈ ratioMap,
        (tableStore.GetOk dormantRatioTable e.1).2
            = (tableStore.GetOk
                [("name", ⟨Value.string "orders", Value.string "", true⟩),
                  ("ratio", ⟨Value.int 0, Value.int 0, false⟩),
                  ("fifo", ⟨Value.bool true, Value.bool false, true⟩)] e.1).2 ∧
          ((tableStore.GetOk dormantRatioTable e.1).2 = true →
            (tableStore.GetOk dormantRatioTable e.1).1
              = (tableStore.GetOk
                  [("name", ⟨Value.string "orders", Value.string "", true⟩),
                    ("ratio", ⟨Value.int 0, Value.int 0, false⟩),
                    ("fifo", ⟨Value.bool true, Value.bool false, true⟩)] e.1).1)) ∧
      ResourceDataToApiAttributesCreate tableStore ratioMap dormantRatioTable
        = ResourceDataToApiAttributesCreate tableStore ratioMap
            [("name", ⟨Value.string "orders", Value.string "", true⟩),
              ("ratio", ⟨Value.int 0, Value.int 0, false⟩),
              ("fifo", ⟨Value.bool true, Value.bool false, true⟩)]) ∧
    ResourceDataToApiAttributesCreate tableStore ratioMap dormantRatioTable
      = (some ⟨[("FifoQueue", "true"), ("QueueName", "orders")]⟩, none) ∧
    ResourceDataToApiAttributesUpdate tableStore ratioMap dormantRatioTable
      = (some ⟨[("FifoQueue", "true"), ("QueueName", "orders")]⟩, none) ∧
    ¬ ((ResourceDataToApiAttributesCreate tableStore ratioMap dormantRatioTable).2 ≠ none) :=
  ⟨⟨by decide,
      export_fails_iff_unsupported.2.2.2.1 _ _ _ _ tableStore tableStore ratioMap
        dormantRatioTable _ (by decide)⟩,
    by decide, by decide, by decide⟩

/-! ## Order of visit -/

/-- Whether the loop fails does not depend on the order of visit. -/
theorem exportLoop_error_perm (read : String → Option Value) (m m' : AttributeMap)
    (acc : GoMap) (hp : m.Perm m') :
    (exportLoop read m acc).2 ≠ none ↔ (exportLoop read m' acc).2 ≠ none := by
  rw [exportLoop_error_iff, exportLoop_error_iff]
  constructor
  · rintro ⟨e, he, hh⟩
    exact ⟨e, hp.mem_iff.mp he, hh⟩
  · rintro ⟨e, he, hh⟩
    exact ⟨e, hp.mem_iff.mpr he, hh⟩

/-- C13. For every attribute map whose API names are pairwise distinct and every
store, two visits of the map in different orders by
`ResourceDataToApiAttributesCreate` both return a map and no error, the two maps
having the same value under every key, the same entries and the same length, or
both return an error and no map; and so for
`ResourceDataToApiAttributesUpdate`. Whether an export fails does not depend on
the order for any attribute map. The field that the error names does depend on
it: with two fields of unsupported type each order names the one it visits
first. -/
theorem export_order_independent :
    (∀ (σ ε : Type) (d : ResourceData σ ε) (m m' : AttributeMap) (s : σ),
      (m.map Prod.snd).Nodup → m.Perm m' →
      (∃ out out', ResourceDataToApiAttributesCreate d m s = (some out, none) ∧
          ResourceDataToApiAttributesCreate d m' s = (some out', none) ∧
          (∀ k, out.index k = out'.index k) ∧ out.entries.Perm out'.entries ∧
          out.len = out'.len) ∨
        (∃ msg msg', ResourceDataToApiAttributesCreate d m s = (none, some msg) ∧
          ResourceDataToApiAttributesCreate d m' s = (none, some msg'))) ∧
    (∀ (σ ε : Type) (d : ResourceData σ ε) (m m' : AttributeMap) (s : σ),
      (m.map Prod.snd).Nodup → m.Perm m' →
      (∃ out out', ResourceDataToApiAttributesUpdate d m s = (some out, none) ∧
          ResourceDataToApiAttributesUpdate d m' s = (some out', none) ∧
          (∀ k, out.index k = out'.index k) ∧ out.entries.Perm out'.entries ∧
          out.len = out'.len) ∨
        (∃ msg msg', ResourceDataToApiAttributesUpdate d m s = (none, some msg) ∧
          ResourceDataToApiAttributesUpdate d m' s = (none, some msg'))) ∧
    (∀ (σ ε : Type) (d : ResourceData σ ε) (m m' : AttributeMap) (s : σ),
      m.Perm m' →
      ((ResourceDataToApiAttributesCreate d m s).2 ≠ none ↔
          (ResourceDataToApiAttributesCreate d m' s).2 ≠ none) ∧
        ((ResourceDataToApiAttributesUpdate d m s).2 ≠ none ↔
          (ResourceDataToApiAttributesUpdate d m' s).2 ≠ none)) ∧
    (weightMap.Perm weightMap.reverse ∧ (weightMap.map Prod.snd).Nodup ∧
      ResourceDataToApiAttributesCreate tableStore weightMap weightTable
        = (none, some "attribute ratio is of unsupported type: float64") ∧
      ResourceDataToApiAttributesCreate tableStore weightMap.reverse weightTable
        = (none, some "attribute weight is of unsupported type: float64") ∧
      ResourceDataToApiAttributesUpdate tableStore weightMap weightTable
        = (none, some "attribute ratio is of unsupported type: float64") ∧
      ResourceDataToApiAttributesUpdate tableStore weightMap.reverse weightTable
        = (none, some "attribute weight is of unsupported type: float64")) := by
  refine ⟨?_, ?_, ?_, ⟨(List.reverse_perm weightMap).symm, by decide, by decide, by decide,
    by decide, by decide⟩⟩
  · intro σ ε d m m' s hnd hp
    unfold ResourceDataToApiAttributesCreate
    rw [createLoop_eq_exportLoop, createLoop_eq_exportLoop]
    exact exportLoop_perm (presentValue d s) m m' hnd hp
  · intro σ ε d m m' s hnd hp
    unfold ResourceDataToApiAttributesUpdate
    rw [updateLoop_eq_exportLoop, updateLoop_eq_exportLoop]
    exact exportLoop_perm (changedValue d s) m m' hnd hp
  · intro σ ε d m m' s hp
    unfold ResourceDataToApiAttributesCreate ResourceDataToApiAttributesUpdate
    rw [createLoop_eq_exportLoop, createLoop_eq_exportLoop, updateLoop_eq_exportLoop,
      updateLoop_eq_exportLoop]
    exact ⟨exportLoop_error_perm _ m m' _ hp, exportLoop_error_perm _ m m' _ hp⟩

/-- The theorem of C13 at the queue map, visited forwards and backwards, on the
store in which only `delay` has changed. -/
theorem export_order_independent_witness :
    (queueMap.map Prod.snd).Nodup ∧ queueMap.Perm queueMap.reverse ∧
    ((∃ out out', ResourceDataToApiAttributesUpdate tableStore queueMap delayChangedTable
          = (some out, none) ∧
        ResourceDataToApiAttributesUpdate tableStore queueMap.reverse delayChangedTable
          = (some out', none) ∧
        (∀ k, out.index k = out'.index k) ∧ out.entries.Perm out'.entries ∧
        out.len = out'.len) ∨
      (∃ msg msg', ResourceDataToApiAttributesUpdate tableStore queueMap delayChangedTable
          = (none, some msg) ∧
        ResourceDataToApiAttributesUpdate tableStore queueMap.reverse delayChangedTable
          = (none, some msg'))) ∧
    ResourceDataToApiAttributesCreate tableStore queueMap delayChangedTable
      = (some ⟨[("DelaySeconds", "45"), ("QueueName", "orders")]⟩, none) ∧
    ResourceDataToApiAttributesCreate tableStore queueMap.reverse delayChangedTable
      = (some ⟨[("QueueName", "orders"), ("DelaySeconds", "45")]⟩, none) :=
  ⟨by decide, (List.reverse_perm queueMap).symm,
    export_order_independent.2.1 _ _ tableStore queueMap queueMap.reverse delayChangedTable
      (by decide) (List.reverse_perm queueMap).symm,
    by decide, by decide⟩

/-! ## Colliding API names and the size of the output -/

theorem GoMap.len_assign_le (m : GoMap) (k v : String) :
    (m.assign k v).len ≤ m.len + 1 := by
  unfold GoMap.assign GoMap.len
  have := List.length_filter_le (fun e : String × String => e.1 != k) m.entries
  simp only [List.length_cons]
  omega

theorem GoMap.len_assign_of_mem (m : GoMap) (k v : String) (h : k ∈ m.keys) :
    (m.assign k v).len ≤ m.len := by
  unfold GoMap.assign GoMap.len
  have hlt : (m.entries.filter (fun e : String × String => e.1 != k)).length
      < m.entries.length := by
    rw [List.length_filter_lt_length_iff_exists]
    obtain ⟨e, he, hek⟩ := List.mem_map.mp h
    exact ⟨e, he, by simp [hek]⟩
  simp only [List.length_cons]
  omega

theorem GoMap.mem_keys_assign_self (m : GoMap) (k v : String) : k ∈ (m.assign k v).keys := by
  rw [GoMap.keys_assign]
  exact List.mem_cons_self _ _

theorem GoMap.mem_keys_assign_of_mem (m : GoMap) (k v k' : String) (h : k' ∈ m.keys) :
    k' ∈ (m.assign k v).keys := by
  rw [GoMap.keys_assign]
  by_cases hk : k' = k
  · rw [hk]; exact List.mem_cons_self _ _
  · exact List.mem_cons_of_mem _ (List.mem_filter.mpr ⟨h, by simpa using hk⟩)

/-- The loop removes no key. -/
theorem exportLoop_keys_mono (read : String → Option Value) (m : AttributeMap)
    (acc out : GoMap) (k : String) (h : exportLoop read m acc = (some out, none))
    (hk : k ∈ acc.keys) : k ∈ out.keys := by
  induction m generalizing acc with
  | nil => simp [exportLoop] at h; rw [← h]; exact hk
  | cons e t ih =>
    obtain ⟨a, b⟩ := e
    cases ha : read a with
    | none =>
      rw [exportLoop_cons_skip read a b t acc ha] at h
      exact ih acc h hk
    | some w =>
      cases hx : apiAttributeValue w with
      | none => rw [exportLoop_cons_fail read a b t acc w ha hx] at h; simp at h
      | some y =>
        rw [exportLoop_cons_assign read a b t acc w y ha hx] at h
        exact ih _ h (GoMap.mem_keys_assign_of_mem acc b y k hk)

/-- A loop over two parts that returns a map ran the first part to a map and the
second part from that map. -/
theorem exportLoop_append_ok (read : String → Option Value) (m₁ m₂ : AttributeMap)
    (acc out : GoMap) (h : exportLoop read (m₁ ++ m₂) acc = (some out, none)) :
    ∃ mid, exportLoop read m₁ acc = (some mid, none) ∧
      exportLoop read m₂ mid = (some out, none) := by
  induction m₁ generalizing acc with
  | nil => exact ⟨acc, rfl, h⟩
  | cons e t ih =>
    obtain ⟨a, b⟩ := e
    rw [List.cons_append] at h
    cases ha : read a with
    | none =>
      rw [exportLoop_cons_skip read a b _ acc ha] at h
      rw [exportLoop_cons_skip read a b t acc ha]
      exact ih acc h
    | some w =>
      cases hx : apiAttributeValue w with
      | none => rw [exportLoop_cons_fail read a b _ acc w ha hx] at h; simp at h
      | some y =>
        rw [exportLoop_cons_assign read a b _ acc w y ha hx] at h
        rw [exportLoop_cons_assign read a b t acc w y ha hx]
        exact ih _ h

/-- The output gains at most one entry per exported field. -/
theorem exportLoop_len_le (read : String → Option Value) (m : AttributeMap)
    (acc out : GoMap) (h : exportLoop read m acc = (some out, none)) :
    out.len ≤ acc.len + (m.filter (fun e => (read e.1).isSome)).length := by
  induction m generalizing acc with
  | nil => simp [exportLoop] at h; rw [← h]; simp
  | cons e t ih =>
    obtain ⟨a, b⟩ := e
    cases ha : read a with
    | none =>
      rw [exportLoop_cons_skip read a b t acc ha] at h
      have := ih acc h
      simpa [List.filter, ha] using this
    | some w =>
      cases hx : apiAttributeValue w with
      | none => rw [exportLoop_cons_fail read a b t acc w ha hx] at h; simp at h
      | some y =>
        rw [exportLoop_cons_assign read a b t acc w y ha hx] at h
        have h1 := ih _ h
        have h2 := GoMap.len_assign_le acc b y
        simp only [List.filter, ha, Option.isSome_some, List.length_cons]
        omega

/-- Every key of the output was a key at the start or is an API name of the
attribute map. -/
theorem exportLoop_keys_subset (read : String → Option Value) (m : AttributeMap)
    (acc out : GoMap) (k : String) (h : exportLoop read m acc = (some out, none))
    (hk : k ∈ out.keys) : k ∈ acc.keys ∨ k ∈ m.map Prod.snd := by
  cases hidx : out.index k with
  | none => exact absurd hk ((GoMap.index_eq_none_iff out k).mp hidx)
  | some x =>
    rcases exportLoop_index_origin read m acc out k x h hidx with h0 | ⟨l, v, hm, _, _⟩
    · left
      by_contra hn
      rw [(GoMap.index_eq_none_iff acc k).mpr hn] at h0
      simp at h0
    · right
      exact List.mem_map.mpr ⟨(l, k), hm, rfl⟩

/-- Two exported fields with one API name: the loop, when every exported field has
a supported type and no later entry exports to that name, returns a map with one
entry for the name, holding the text of the field visited last, and with fewer
entries than exported fields. -/
theorem exportLoop_collision (read : String → Option Value)
    (pre mid post : AttributeMap) (l₁ l₂ r : String) (v₁ v₂ : Value)
    (hsup : ∀ e ∈ pre ++ (l₁, r) :: (mid ++ (l₂, r) :: post), ∀ v,
      read e.1 = some v → apiAttributeValue v ≠ none)
    (h₁ : read l₁ = some v₁) (h₂ : read l₂ = some v₂)
    (hlast : ∀ e ∈ post, e.2 = r → read e.1 = none) :
    ∃ out, exportLoop read (pre ++ (l₁, r) :: (mid ++ (l₂, r) :: post)) GoMap.empty
        = (some out, none) ∧
      out.index r = apiAttributeValue v₂ ∧
      out.keys.count r = 1 ∧
      out.len < ((pre ++ (l₁, r) :: (mid ++ (l₂, r) :: post)).filter
        (fun e => (read e.1).isSome)).length := by
  obtain ⟨out, hout⟩ := exportLoop_ok read _ GoMap.empty hsup
  have hsplit : pre ++ (l₁, r) :: (mid ++ (l₂, r) :: post)
      = (pre ++ (l₁, r) :: mid) ++ (l₂, r) :: post := by simp
  have hidx : out.index r = apiAttributeValue v₂ := by
    have h' := hout
    rw [hsplit] at h'
    exact exportLoop_index_last read _ post l₂ r v₂ GoMap.empty out h' h₂ hlast
  have hnd : out.keys.Nodup :=
    exportLoop_nodup_keys read _ GoMap.empty out hout (by simp [GoMap.keys, GoMap.empty])
  obtain ⟨x₂, hx₂⟩ := Option.ne_none_iff_exists'.mp
    (hsup (l₂, r) (by simp) v₂ h₂)
  obtain ⟨x₁, hx₁⟩ := Option.ne_none_iff_exists'.mp
    (hsup (l₁, r) (by simp) v₁ h₁)
  have hmem : r ∈ out.keys := by
    by_contra hn
    rw [(GoMap.index_eq_none_iff out r).mpr hn, hx₂] at hidx
    simp at hidx
  refine ⟨out, hout, hidx, List.count_eq_one_of_mem hnd hmem, ?_⟩
  -- the size
  have h' := hout
  rw [hsplit] at h'
  obtain ⟨acc₁, ha, hb⟩ := exportLoop_append_ok read _ _ GoMap.empty out h'
  obtain ⟨acc₀, hp, hq⟩ := exportLoop_append_ok read pre _ GoMap.empty acc₁ ha
  rw [exportLoop_cons_assign read l₁ r mid acc₀ v₁ x₁ h₁ hx₁] at hq
  have hr₁ : r ∈ acc₁.keys :=
    exportLoop_keys_mono read mid _ acc₁ r hq (GoMap.mem_keys_assign_self acc₀ r x₁)
  rw [exportLoop_cons_assign read l₂ r post acc₁ v₂ x₂ h₂ hx₂] at hb
  have hlen₁ := exportLoop_len_le read _ GoMap.empty acc₁ ha
  have hlen₂ := exportLoop_len_le read post _ out hb
  have hlen₃ := GoMap.len_assign_of_mem acc₁ r x₂ hr₁
  have hempty : GoMap.empty.len = 0 := rfl
  rw [hsplit, List.filter_append, List.length_append]
  simp only [List.filter, h₂, Option.isSome_some, List.length_cons]
  omega

/-- C14, as amended. When two entries of the attribute map have the same API name
and both fields are present (create) or changed (update), every present (changed)
mapped field holds an `int`, a `bool` or a `string`, and no entry visited after
the second of the two exports to that API name, the export returns a map and no
error; the map has one entry for that API name, holding the text of the field
visited last of the two; and the map has fewer entries than there are present
(changed) mapped fields. -/
theorem export_collision_last_wins :
    (∀ (σ ε : Type) (d : ResourceData σ ε) (pre mid post : AttributeMap)
        (l₁ l₂ r : String) (s : σ),
      (∀ e ∈ pre ++ (l₁, r) :: (mid ++ (l₂, r) :: post), (d.GetOk s e.1).2 = true →
        apiAttributeValue (d.GetOk s e.1).1 ≠ none) →
      (d.GetOk s l₁).2 = true → (d.GetOk s l₂).2 = true →
      (∀ e ∈ post, e.2 = r → (d.GetOk s e.1).2 = false) →
      ∃ out, ResourceDataToApiAttributesCreate d
            (pre ++ (l₁, r) :: (mid ++ (l₂, r) :: post)) s = (some out, none) ∧
        out.index r = apiAttributeValue (d.GetOk s l₂).1 ∧
        out.keys.count r = 1 ∧
        out.len < ((pre ++ (l₁, r) :: (mid ++ (l₂, r) :: post)).filter
          (fun e => (d.GetOk s e.1).2)).length) ∧
    (∀ (σ ε : Type) (d : ResourceData σ ε) (pre mid post : AttributeMap)
        (l₁ l₂ r : String) (s : σ),
      (∀ e ∈ pre ++ (l₁, r) :: (mid ++ (l₂, r) :: post), d.HasChange s e.1 = true →
        apiAttributeValue (d.Get s e.1) ≠ none) →
      d.HasChange s l₁ = true → d.HasChange s l₂ = true →
      (∀ e ∈ post, e.2 = r → d.HasChange s e.1 = false) →
      ∃ out, ResourceDataToApiAttributesUpdate d
            (pre ++ (l₁, r) :: (mid ++ (l₂, r) :: post)) s = (some out, none) ∧
        out.index r = apiAttributeValue (d.Get s l₂) ∧
        out.keys.count r = 1 ∧
        out.len < ((pre ++ (l₁, r) :: (mid ++ (l₂, r) :: post)).filter
          (fun e => d.HasChange s e.1)).length) := by
  refine ⟨?_, ?_⟩
  · intro σ ε d pre mid post l₁ l₂ r s hsup h₁ h₂ hlast
    have hsup2 : ∀ e ∈ pre ++ (l₁, r) :: (mid ++ (l₂, r) :: post), ∀ v,
        presentValue d s e.1 = some v → apiAttributeValue v ≠ none := by
      intro e he v hv
      obtain ⟨hok, rfl⟩ := (presentValue_eq_some d s e.1 v).mp hv
      exact hsup e he hok
    obtain ⟨out, hout, hidx, hcount, hlen⟩ :=
      exportLoop_collision (presentValue d s) pre mid post l₁ l₂ r _ _ hsup2
        ((presentValue_eq_some d s l₁ _).mpr ⟨h₁, rfl⟩)
        ((presentValue_eq_some d s l₂ _).mpr ⟨h₂, rfl⟩)
        (fun e he her => (presentValue_eq_none d s e.1).mpr (hlast e he her))
    refine ⟨out, by rw [ResourceDataToApiAttributesCreate, createLoop_eq_exportLoop]; exact hout,
      hidx, hcount, ?_⟩
    have hf : (pre ++ (l₁, r) :: (mid ++ (l₂, r) :: post)).filter
          (fun e => (d.GetOk s e.1).2)
        = (pre ++ (l₁, r) :: (mid ++ (l₂, r) :: post)).filter
          (fun e => (presentValue d s e.1).isSome) :=
      List.filter_congr (fun (e : String × String) _ => (presentValue_isSome d s e.1).symm)
    rw [hf]
    exact hlen
  · intro σ ε d pre mid post l₁ l₂ r s hsup h₁ h₂ hlast
    have hsup2 : ∀ e ∈ pre ++ (l₁, r) :: (mid ++ (l₂, r) :: post), ∀ v,
        changedValue d s e.1 = some v → apiAttributeValue v ≠ none := by
      intro e he v hv
      obtain ⟨hc, rfl⟩ := (changedValue_eq_some d s e.1 v).mp hv
      exact hsup e he hc
    obtain ⟨out, hout, hidx, hcount, hlen⟩ :=
      exportLoop_collision (changedValue d s) pre mid post l₁ l₂ r _ _ hsup2
        ((changedValue_eq_some d s l₁ _).mpr ⟨h₁, rfl⟩)
        ((changedValue_eq_some d s l₂ _).mpr ⟨h₂, rfl⟩)
        (fun e he her => (changedValue_eq_none d s e.1).mpr (hlast e he her))
    refine ⟨out, by rw [ResourceDataToApiAttributesUpdate, updateLoop_eq_exportLoop]; exact hout,
      hidx, hcount, ?_⟩
    have hf : (pre ++ (l₁, r) :: (mid ++ (l₂, r) :: post)).filter
          (fun e => d.HasChange s e.1)
        = (pre ++ (l₁, r) :: (mid ++ (l₂, r) :: post)).filter
          (fun e => (changedValue d s e.1).isSome) :=
      List.filter_congr (fun (e : String × String) _ => (changedValue_isSome d s e.1).symm)
    rw [hf]
    exact hlen

/-- The theorem of C14 at `collidingMap`: two present fields, one entry, holding the
text of `second`. -/
theorem export_collision_last_wins_witness :
    ((∀ e ∈ collidingMap, (tableStore.GetOk collidingTable e.1).2 = true →
        apiAttributeValue (tableStore.GetOk collidingTable e.1).1 ≠ none) ∧
      (tableStore.GetOk collidingTable "first").2 = true ∧
      (tableStore.GetOk collidingTable "second").2 = true) ∧
    (∃ out, ResourceDataToApiAttributesCreate tableStore collidingMap collidingTable
        = (some out, none) ∧
      out.index "Name" = apiAttributeValue (tableStore.GetOk collidingTable "second").1 ∧
      out.keys.count "Name" = 1 ∧
      out.len < (collidingMap.filter
        (fun e : String × String => (tableStore.GetOk collidingTable e.1).2)).length) ∧
    ResourceDataToApiAttributesCreate tableStore collidingMap collidingTable
      = (some ⟨[("Name", "2")]⟩, none) ∧
    (collidingMap.filter
      (fun e : String × String => (tableStore.GetOk collidingTable e.1).2)).length = 2 :=
  ⟨⟨by decide, by decide, by decide⟩,
    export_collision_last_wins.1 _ _ tableStore [] [] [] "first" "second" "Name"
      collidingTable (by decide) (by decide) (by decide) (by decide),
    by decide, by decide⟩

/-- C14 as stated fails in two ways. In `crowdedMap` two present and changed string
fields share an API name, and both exports return no map, a third field being of
unsupported type. In `tripleMap` the entry holds the text of a third field with the
same API name, visited after the two. -/
theorem export_collision_counterexample :
    (("first", "Name") ∈ crowdedMap ∧ ("second", "Name") ∈ crowdedMap ∧
      tableStore.GetOk crowdedTable "first" = (Value.string "1", true) ∧
      tableStore.GetOk crowdedTable "second" = (Value.string "2", true) ∧
      tableStore.HasChange crowdedTable "first" = true ∧
      tableStore.HasChange crowdedTable "second" = true ∧
      ResourceDataToApiAttributesCreate tableStore crowdedMap crowdedTable
        = (none, some "attribute ratio is of unsupported type: float64") ∧
      ResourceDataToApiAttributesUpdate tableStore crowdedMap crowdedTable
        = (none, some "attribute ratio is of unsupported type: float64")) ∧
    (("first", "Name") ∈ tripleMap ∧ ("second", "Name") ∈ tripleMap ∧
      tableStore.GetOk tripleTable "first" = (Value.string "1", true) ∧
      tableStore.GetOk tripleTable "second" = (Value.string "2", true) ∧
      ResourceDataToApiAttributesCreate tableStore tripleMap tripleTable
        = (some ⟨[("Name", "3")]⟩, none) ∧
      GoMap.index ⟨[("Name", "3")]⟩ "Name" ≠ apiAttributeValue (Value.string "1") ∧
      GoMap.index ⟨[("Name", "3")]⟩ "Name" ≠ apiAttributeValue (Value.string "2")) := by
  decide

/-- C15. For every attribute map and every store in which each mapped field is
reported present by `GetOk` exactly when `HasChange` reports it changed, and
`GetOk` returns for a present field the value `Get` returns,
`ResourceDataToApiAttributesCreate` and `ResourceDataToApiAttributesUpdate`,
visiting the map in the same order, return the same result: the same map, or the
same error naming the same field. -/
theorem create_update_agree {σ ε : Type} (d : ResourceData σ ε) (m : AttributeMap) (s : σ)
    (hsame : ∀ e ∈ m, (d.GetOk s e.1).2 = d.HasChange s e.1)
    (hval : ∀ e ∈ m, (d.GetOk s e.1).2 = true → (d.GetOk s e.1).1 = d.Get s e.1) :
    ResourceDataToApiAttributesCreate d m s = ResourceDataToApiAttributesUpdate d m s := by
  rw [ResourceDataToApiAttributesCreate, ResourceDataToApiAttributesUpdate,
    createLoop_eq_exportLoop, updateLoop_eq_exportLoop]
  apply exportLoop_congr
  intro e he
  unfold presentValue changedValue
  rw [← hsame e he]
  cases hok : (d.GetOk s e.1).2 with
  | true => simp [hval e he hok]
  | false => simp

/-- The theorem of C15 at a store whose fields are all present and changed: with the
`float64` field both exports fail with the same error, without it both return the
same map. -/
theorem create_update_agree_witness :
    ((∀ e ∈ ratioMap, (tableStore.GetOk ratioTable e.1).2 = tableStore.HasChange ratioTable e.1) ∧
      (∀ e ∈ ratioMap, (tableStore.GetOk ratioTable e.1).2 = true →
        (tableStore.GetOk ratioTable e.1).1 = tableStore.Get ratioTable e.1) ∧
      ResourceDataToApiAttributesCreate tableStore ratioMap ratioTable
        = ResourceDataToApiAttributesUpdate tableStore ratioMap ratioTable ∧
      ResourceDataToApiAttributesUpdate tableStore ratioMap ratioTable
        = (none, some "attribute ratio is of unsupported type: float64")) ∧
    ((∀ e ∈ [("name", "QueueName"), ("fifo", "FifoQueue")],
        (tableStore.GetOk ratioTable e.1).2 = tableStore.HasChange ratioTable e.1) ∧
      (∀ e ∈ [("name", "QueueName"), ("fifo", "FifoQueue")],
        (tableStore.GetOk ratioTable e.1).2 = true →
        (tableStore.GetOk ratioTable e.1).1 = tableStore.Get ratioTable e.1) ∧
      ResourceDataToApiAttributesCreate tableStore
          [("name", "QueueName"), ("fifo", "FifoQueue")] ratioTable
        = ResourceDataToApiAttributesUpdate tableStore
          [("name", "QueueName"), ("fifo", "FifoQueue")] ratioTable ∧
      ResourceDataToApiAttributesUpdate tableStore
          [("name", "QueueName"), ("fifo", "FifoQueue")] ratioTable
        = (some ⟨[("FifoQueue", "true"), ("QueueName", "orders")]⟩, none)) :=
  ⟨⟨by decide, by decide,
      create_update_agree tableStore ratioMap ratioTable (by decide) (by decide), by decide⟩,
    ⟨by decide, by decide,
      create_update_agree tableStore [("name", "QueueName"), ("fifo", "FifoQueue")] ratioTable
        (by decide) (by decide),
      by decide⟩⟩

/-- C16, as amended. Every key of a map that `ResourceDataToApiAttributesCreate` or
`ResourceDataToApiAttributesUpdate` returns is the API name of an entry of the
attribute map: a name that is no API name of the map, be it a field name or any
other, is not a key. The keys are pairwise distinct and the map has at most as
many entries as the attribute map. -/
theorem export_output_bounded {σ ε : Type} (d : ResourceData σ ε) (m : AttributeMap)
    (s : σ) (out : GoMap)
    (h : ResourceDataToApiAttributesCreate d m s = (some out, none) ∨
      ResourceDataToApiAttributesUpdate d m s = (some out, none)) :
    (∀ k ∈ out.keys, k ∈ m.map Prod.snd) ∧
    (∀ k, k ∉ m.map Prod.snd → out.index k = none) ∧
    (∀ e ∈ m, e.1 ∉ m.map Prod.snd → e.1 ∉ out.keys) ∧
    out.keys.Nodup ∧
    out.len ≤ m.length := by
  have key : ∀ read : String → Option Value,
      exportLoop read m GoMap.empty = (some out, none) →
      (∀ k ∈ out.keys, k ∈ m.map Prod.snd) ∧
      (∀ k, k ∉ m.map Prod.snd → out.index k = none) ∧
      (∀ e ∈ m, e.1 ∉ m.map Prod.snd → e.1 ∉ out.keys) ∧
      out.keys.Nodup ∧
      out.len ≤ m.length := by
    intro read hres
    have hsub : ∀ k ∈ out.keys, k ∈ m.map Prod.snd := by
      intro k hk
      rcases exportLoop_keys_subset read m GoMap.empty out k hres hk with h0 | h1
      · simp [GoMap.keys, GoMap.empty] at h0
      · exact h1
    refine ⟨hsub, ?_, ?_, ?_, ?_⟩
    · intro k hk
      exact (GoMap.index_eq_none_iff out k).mpr (fun hmem => hk (hsub k hmem))
    · intro e _ hne hmem
      exact hne (hsub e.1 hmem)
    · exact exportLoop_nodup_keys read m GoMap.empty out hres (by simp [GoMap.keys, GoMap.empty])
    · have h1 := exportLoop_len_le read m GoMap.empty out hres
      have h2 := List.length_filter_le (fun e : String × String => (read e.1).isSome) m
      have h3 : GoMap.empty.len = 0 := rfl
      omega
  rcases h with h | h
  · rw [ResourceDataToApiAttributesCreate, createLoop_eq_exportLoop] at h
    exact key _ h
  · rw [ResourceDataToApiAttributesUpdate, updateLoop_eq_exportLoop] at h
    exact key _ h

/-- The theorem of C16 at the queue store: one entry, under an API name of the queue
map, which has three. -/
theorem export_output_bounded_witness :
    (ResourceDataToApiAttributesCreate tableStore queueMap ordersTable
        = (some ⟨[("QueueName", "orders")]⟩, none) ∨
      ResourceDataToApiAttributesUpdate tableStore queueMap ordersTable
        = (some ⟨[("QueueName", "orders")]⟩, none)) ∧
    ((∀ k ∈ GoMap.keys ⟨[("QueueName", "orders")]⟩,
        k ∈ queueMap.map Prod.snd) ∧
      (∀ k, k ∉ queueMap.map Prod.snd →
        GoMap.index ⟨[("QueueName", "orders")]⟩ k = none) ∧
      (∀ e ∈ queueMap, e.1 ∉ queueMap.map Prod.snd →
        e.1 ∉ GoMap.keys ⟨[("QueueName", "orders")]⟩) ∧
      (GoMap.keys ⟨[("QueueName", "orders")]⟩).Nodup ∧
      GoMap.len ⟨[("QueueName", "orders")]⟩ ≤ queueMap.length) :=
  ⟨Or.inl (by decide),
    export_output_bounded tableStore queueMap ordersTable
      ⟨[("QueueName", "orders")]⟩ (Or.inl (by decide))⟩

/-- C16 as stated fails for a field whose name is also its API name: `name` is a
field name of `echoMap`, the store holds `orders` for it, and both exports return
a map whose one key is `name`. -/
theorem export_key_field_name_counterexample :
    ("name", "name") ∈ echoMap ∧
    "name" ∈ echoMap.map Prod.fst ∧
    ResourceDataToApiAttributesCreate tableStore echoMap ordersTable
      = (some ⟨[("name", "orders")]⟩, none) ∧
    ResourceDataToApiAttributesUpdate tableStore echoMap ordersTable
      = (some ⟨[("name", "orders")]⟩, none) ∧
    ResourceDataToApiAttributesCreate queueStore echoMap ordersQueue
      = (some ⟨[("name", "orders")]⟩, none) ∧
    "name" ∈ GoMap.keys ⟨[("name", "orders")]⟩ := by
  decide

end Attrmap
